import Mathlib

/-!
Formal verification of the layout/table-reconstruction core of ReconService.

The definitions below are a shallow embedding of the Python sources:
 * `src/src/PDFExtractor/scan_extractor.py` (grid building, row splitting,
   paragraph classification, OCR result aggregation, text-line grouping);
 * `src/src/DocumentProcessor/LayoutAnalisis/TableDetector/find_table_candidates.py`
   (line-component filtering);
 * `src/src/DocumentProcessor/LayoutAnalisis/TableDetector/table.py`
   (cell geometry helpers).

Binarized images are modelled as a shape together with a boolean pixel
predicate (`Img`); machine integers are modelled as `Int`/`Nat` (Python's
integers are unbounded, and the few float computations used for comparisons
are exact at the integer/half-integer values involved, so they are modelled
by integer comparisons of doubled quantities).  A handful of helpers used by
`scan_extractor.py` live in modules absent from the provided sources
(`PDFExtractor/utils.py`, `PDFExtractor/base_extractor.py`); these are
modelled from the specification and marked as such in their doc comments.
-/

set_option maxHeartbeats 1000000

/-- Axis-aligned rectangle with absolute corner coordinates, as in
`base_extractor.BBox` (x1, y1, x2, y2). -/
structure BBoxE where
  x1 : Int
  y1 : Int
  x2 : Int
  y2 : Int
deriving DecidableEq

/-- Height of a bbox, `y2 - y1`. -/
def BBoxE.height (b : BBoxE) : Int := b.y2 - b.y1

/-- Modelled from the spec: `BBox.padding` of the missing
`PDFExtractor/base_extractor.py` expands a bbox by `p` on every side.
`scan_extractor.py` only ever calls it with `CELL_ROI_PADDING = 0`. -/
def BBoxE.padding (b : BBoxE) (p : Int) : BBoxE :=
  ⟨b.x1 - p, b.y1 - p, b.x2 + p, b.y2 + p⟩

/-- Table cell as in `base_extractor.Cell`: bbox, top-left atomic grid
indices, spans, recognized text and word-level blob boxes. -/
structure CellE where
  bbox : BBoxE
  row : Nat
  col : Nat
  colspan : Nat
  rowspan : Nat
  text : String
  blobs : List BBoxE
deriving DecidableEq

/-- Paragraph classification, as in `ParagraphType`. -/
inductive ParaType where
  | header
  | footer
  | none
deriving DecidableEq

/-- Paragraph as in `base_extractor.Paragraph` (text filled in later by OCR). -/
structure ParagraphE where
  bbox : BBoxE
  type : ParaType
  text : String
deriving DecidableEq

/-- A binarized single-channel image: height, width, and a foreground
predicate on (row, column) pixel coordinates. -/
structure Img where
  h : Nat
  w : Nat
  pix : Nat → Nat → Bool

/-- Number of foreground pixels of `img` inside the rectangle of rows
`[r0, r1)` and columns `[c0, c1)`. -/
def countRect (img : Img) (r0 r1 c0 c1 : Nat) : Nat :=
  ((List.range' r0 (r1 - r0)).map fun r =>
      ((List.range' c0 (c1 - c0)).filter fun c => img.pix r c).length).sum

/-- Modelled from the spec: `has_line` of the missing
`PDFExtractor/utils.py`.  Per §4.3 step 5 of the spec, a probed strip is
treated as containing a separating rule exactly when the amount of
foreground in the strip meets the minimum-length threshold; the strip is
rows `[r0, r1)` × columns `[c0, c1)` and the threshold is `minLen` pixels. -/
def hasLine (img : Img) (r0 r1 c0 c1 minLen : Nat) : Bool :=
  decide (minLen ≤ countRect img r0 r1 c0 c1)

/-- Modelled from the spec: `find_line_positions` of the missing
`PDFExtractor/utils.py`.  Per §4.3 step 1 of the spec it projects a line
mask onto its axis and returns the sorted, de-duplicated boundary
coordinates: for `axis = 0` the columns of the vertical-line mask holding
some foreground pixel, for `axis = 1` the analogous rows. -/
def findLinePositions (img : Img) (axis : Nat) : List Nat :=
  if axis = 0 then
    (List.range img.w).filter fun c => (List.range img.h).any fun r => img.pix r c
  else
    (List.range img.h).filter fun r => (List.range img.w).any fun c => img.pix r c

/-- Column boundary positions `xs` of `_grid_table`. -/
def gridXs (pureV : Img) : List Nat := findLinePositions pureV 0

/-- Row boundary positions `ys` of `_grid_table`, including the synthetic
bottom boundary appended when the lowest detected horizontal line sits more
than `min_row_height_threshold = 10` pixels above the ROI bottom. -/
def gridYs (pureH : Img) : List Nat :=
  match findLinePositions pureH 1 with
  | [] => []
  | y :: ys =>
      if ys.getLastD y < pureH.h - 10 then (y :: ys) ++ [pureH.h] else y :: ys

/-- Colspan growth loop of `_grid_table` (the `for next_c in
range(c_idx+1, n_cols)` loop), expressed with explicit fuel equal to the
number of remaining loop iterations.  The accumulator holds the current
`(col_span, current_x1_merged)`.  `margin = 0`, `line_check_thickness = 3`
and `line_frac = 0.2` are inlined from the source; `int(n * 0.2)` equals
`n / 5` on natural numbers. -/
def growColAux (pureV : Img) (xs : List Nat) (y0 y1 : Nat) :
    Nat → Nat → Nat × Nat → Nat × Nat
  | 0, _, acc => acc
  | fuel + 1, nextC, acc =>
      let xpos := xs.getD nextC 0
      let xS := xpos - 3
      let xE := min pureV.w (xpos + 4)
      if y1 ≤ y0 ∨ xE ≤ xS then acc
      else if hasLine pureV y0 y1 xS xE ((y1 - y0) / 5) then acc
      else growColAux pureV xs y0 y1 fuel (nextC + 1) (acc.1 + 1, xs.getD (nextC + 1) 0)

/-- Colspan growth for the base cell at column `cIdx`, row strip
`[y0, y1)`; returns `(col_span, current_x1_merged)`. -/
def growCol (pureV : Img) (xs : List Nat) (nCols y0 y1 cIdx : Nat) : Nat × Nat :=
  growColAux pureV xs y0 y1 (nCols - (cIdx + 1)) (cIdx + 1) (1, xs.getD (cIdx + 1) 0)

/-- Rowspan growth loop of `_grid_table` (the `for next_r in
range(r_idx+1, n_rows)` loop); the probed horizontal strip spans the
already-colspan-extended width `[x0, x1)`. -/
def growRowAux (pureH : Img) (ys : List Nat) (x0 x1 : Nat) :
    Nat → Nat → Nat × Nat → Nat × Nat
  | 0, _, acc => acc
  | fuel + 1, nextR, acc =>
      let ypos := ys.getD nextR 0
      let yS := ypos - 3
      let yE := min pureH.h (ypos + 4)
      if x1 ≤ x0 ∨ yE ≤ yS then acc
      else if hasLine pureH yS yE x0 x1 ((x1 - x0) / 5) then acc
      else growRowAux pureH ys x0 x1 fuel (nextR + 1) (acc.1 + 1, ys.getD (nextR + 1) 0)

/-- Rowspan growth for the base cell at row `rIdx`, columns `[x0, x1)`;
returns `(row_span, current_y1_merged)`. -/
def growRow (pureH : Img) (ys : List Nat) (nRows x0 x1 rIdx : Nat) : Nat × Nat :=
  growRowAux pureH ys x0 x1 (nRows - (rIdx + 1)) (rIdx + 1) (1, ys.getD (rIdx + 1) 0)

/-- State of the `_grid_table` scan: the dense boolean `used` occupancy
matrix (total function over indices; the source guards updates with
`rr < n_rows and cc < n_cols`) and the cells emitted so far. -/
structure GridAcc where
  used : Nat → Nat → Bool
  cells : List CellE

/-- Whether cell `cl` covers the atomic grid position `(r, c)`. -/
def coversB (cl : CellE) (r c : Nat) : Bool :=
  decide (cl.row ≤ r) && decide (r < cl.row + cl.rowspan) &&
    decide (cl.col ≤ c) && decide (c < cl.col + cl.colspan)

/-- The `(col_span, current_x1_merged)` of the cell based at `(r, c)`:
colspan growth runs for `span_mode in (0, 1)`, otherwise the base cell's
right boundary stands. -/
def gridCR (pureV : Img) (xs ys : List Nat) (nCols spanMode : Nat)
    (r c : Nat) : Nat × Nat :=
  if spanMode = 0 ∨ spanMode = 1 then
    growCol pureV xs nCols (ys.getD r 0) (ys.getD (r + 1) 0) c
  else (1, xs.getD (c + 1) 0)

/-- The `(row_span, current_y1_merged)` of the cell based at `(r, c)` with
colspan-extended right boundary `crx`: rowspan growth runs for `span_mode
in (0, 2)`. -/
def gridRR (pureH : Img) (xs ys : List Nat) (nRows spanMode : Nat)
    (crx : Nat) (r c : Nat) : Nat × Nat :=
  if spanMode = 0 ∨ spanMode = 2 then
    growRow pureH ys nRows (xs.getD c 0) crx r
  else (1, ys.getD (r + 1) 0)

/-- The cell emitted for the merged region based at `(r, c)` with span
results `cr`/`rr`: bbox translated by the ROI origin `(px, py)`, original
grid indices, spans, empty text. -/
def gridNewCell (px py : Int) (xs ys : List Nat) (cr rr : Nat × Nat)
    (r c : Nat) : CellE :=
  { bbox := ⟨(xs.getD c 0 : Int) + px, (ys.getD r 0 : Int) + py,
             (cr.2 : Int) + px, (rr.2 : Int) + py⟩
    row := r, col := c, colspan := cr.1, rowspan := rr.1
    text := "", blobs := [] }

/-- The emit part of one `_grid_table` iteration: mark all covered atomic
positions used (guarded by `rr < n_rows and cc < n_cols` as in the source)
and append the new cell. -/
def gridEmit (px py : Int) (xs ys : List Nat) (nRows nCols : Nat)
    (cr rr : Nat × Nat) (acc : GridAcc) (r c : Nat) : GridAcc :=
  { used := fun a b =>
      acc.used a b ||
        (decide (r ≤ a) && decide (a < r + rr.1) &&
          decide (c ≤ b) && decide (b < c + cr.1) &&
          decide (a < nRows) && decide (b < nCols))
    cells := acc.cells ++ [gridNewCell px py xs ys cr rr r c] }

/-- One iteration of the `_grid_table` double loop at position
`rc = (r_idx, c_idx)`: skip if used, otherwise grow spans (gated by
`span_mode`), mark the covered atomic positions used, and emit one cell. -/
def gridStep (px py : Int) (pureV pureH : Img) (xs ys : List Nat)
    (nRows nCols spanMode : Nat) (acc : GridAcc) (rc : Nat × Nat) : GridAcc :=
  if acc.used rc.1 rc.2 then acc
  else
    gridEmit px py xs ys nRows nCols
      (gridCR pureV xs ys nCols spanMode rc.1 rc.2)
      (gridRR pureH xs ys nRows spanMode
        (gridCR pureV xs ys nCols spanMode rc.1 rc.2).2 rc.1 rc.2)
      acc rc.1 rc.2

/-- Row-major enumeration of the atomic grid positions scanned by
`_grid_table`. -/
def gridPositions (nRows nCols : Nat) : List (Nat × Nat) :=
  (List.range nRows).flatMap fun r => (List.range nCols).map fun c => (r, c)

/-- `ScanExtractor._grid_table`: builds the list of cells (with
colspan/rowspan) for the ROI whose filtered vertical/horizontal line masks
are `pureV`/`pureH` and whose page origin is `(px, py)`. -/
def gridTable (px py : Int) (pureV pureH : Img) (spanMode : Nat) : List CellE :=
  let xs := gridXs pureV
  if xs.length < 2 then [] else
  let ys := gridYs pureH
  if ys.length < 2 then [] else
  let nRows := ys.length - 1
  let nCols := xs.length - 1
  ((gridPositions nRows nCols).foldl
      (gridStep px py pureV pureH xs ys nRows nCols spanMode)
      ⟨fun _ _ => false, []⟩).cells

/-- The perfectly tiled atomic grid over boundary lists `xs`, `ys`:
one `1 × 1` cell per consecutive boundary pair, in row-major order, with
bboxes translated by the origin `(px, py)`. -/
def atomicGrid (px py : Int) (xs ys : List Nat) : List CellE :=
  (List.range (ys.length - 1)).flatMap fun r =>
    (List.range (xs.length - 1)).map fun c =>
      { bbox := ⟨(xs.getD c 0 : Int) + px, (ys.getD r 0 : Int) + py,
                 (xs.getD (c + 1) 0 : Int) + px, (ys.getD (r + 1) 0 : Int) + py⟩
        row := r, col := c, colspan := 1, rowspan := 1, text := "", blobs := [] }

/-- Translation of an OCR word box `(x, y, w, h)` given relative to a ROI
into page-absolute corner coordinates, as done in the OCR aggregation loop
of `ScanExtractor._process`. -/
def translateBox (ox oy bx by0 bw bh : Int) : BBoxE :=
  ⟨ox + bx, oy + by0, ox + bx + bw, oy + by0 + bh⟩

/-- Connected line component of one orientation's mask inside a candidate
ROI, abstracting the output of the external `cv2` labeling calls used by
`FindTableCadidates._filter_small_and_isolated`: `length` is the
component's pixel count (`CC_STAT_AREA`) and `crosses` is the number of
connected blobs of the intersection of the component with the
orthogonal-intersection mask (`comp AND intersec`), which the source
computes as `cv2.connectedComponents(...) - 1` (0 when the intersection is
empty). -/
structure LineComp where
  length : Nat
  crosses : Nat
deriving DecidableEq

/-- `FindTableCadidates._filter_small_and_isolated`: a component survives
exactly when its pixel length reaches `minLength` and its number of
intersection blobs is strictly greater than `minIntersections`. -/
def filterSmallAndIsolated (comps : List LineComp)
    (minLength minIntersections : Nat) : List LineComp :=
  comps.filter fun c =>
    decide (minLength ≤ c.length) && decide (minIntersections < c.crosses)

/-- Rectangle as in `TableDetector/table.py` `BBox`: position plus
width/height. -/
structure TBBox where
  x : Int
  y : Int
  width : Int
  height : Int
deriving DecidableEq

/-- `table.BBox.area`. -/
def TBBox.area (b : TBBox) : Int := b.width * b.height

/-- Cell as in `TableDetector/table.py` `Cell` (fields not used by the
claims are carried for fidelity). -/
structure TCell where
  bbox : TBBox
  row : Int
  col : Int
  colspan : Int
  rowspan : Int
  text : Option String
  blobs : List TBBox
deriving DecidableEq

/-- `table.Cell.free_space_ratio` (renamed here): share of the cell bbox
area not occupied by blob areas, with the summed blob area clamped from
above by the bbox area and an early `1.0` return for a zero-area bbox.
The float division of the source is modelled exactly over `ℚ`. -/
def cellFreeSpace (c : TCell) : ℚ :=
  let cellArea : Int := c.bbox.area
  if cellArea = 0 then 1
  else
    let occupied : Int := min ((c.blobs.map TBBox.area).sum) cellArea
    ((cellArea - occupied : Int) : ℚ) / (cellArea : ℚ)

/-- Claim C7: translating a ROI-local word box `(x, y, w, h)` to
page-absolute corners and subtracting the ROI origin reproduces the local
box exactly, for every origin and box (exact integer round-trip). -/
theorem claim_C7_coordinate_roundtrip (ox oy bx by0 bw bh : Int) :
    (translateBox ox oy bx by0 bw bh).x1 - ox = bx ∧
    (translateBox ox oy bx by0 bw bh).y1 - oy = by0 ∧
    (translateBox ox oy bx by0 bw bh).x2 - ox = bx + bw ∧
    (translateBox ox oy bx by0 bw bh).y2 - oy = by0 + bh ∧
    (translateBox ox oy bx by0 bw bh).x2 - (translateBox ox oy bx by0 bw bh).x1 = bw ∧
    (translateBox ox oy bx by0 bw bh).y2 - (translateBox ox oy bx by0 bw bh).y1 = bh := by
  refine ⟨?_, ?_, ?_, ?_, ?_, ?_⟩ <;> simp [translateBox] <;> ring

/-- Claim C9, counterexample: a line component whose pixel length meets the
length threshold (120 ≥ 120) and which intersects the orthogonal mask in
exactly one place (`crosses = 1`, so it does intersect the AND of the two
masks) is nevertheless dropped by `_filter_small_and_isolated` at the
call-site value `min_intersections = 1`; the claim says every such
component is kept. -/
theorem claim_C9_counterexample :
    (120 ≤ (⟨120, 1⟩ : LineComp).length ∧ 1 ≤ (⟨120, 1⟩ : LineComp).crosses) ∧
      ¬ ((⟨120, 1⟩ : LineComp) ∈ filterSmallAndIsolated [⟨120, 1⟩] 120 1) := by
  decide

/-- Claim C9, amended: a component of the candidate ROI's line mask is kept
by `_filter_small_and_isolated` exactly when its pixel length reaches the
length threshold and its number of connected intersection blobs with the
AND of the two orientation masks is strictly greater than
`min_intersections` (so at the call sites, which pass
`min_intersections = 1`, a component must cross the orthogonal mask in at
least two separate places); all other components are dropped. -/
theorem claim_C9_amended (comps : List LineComp) (minLength minIntersections : Nat)
    (c : LineComp) :
    c ∈ filterSmallAndIsolated comps minLength minIntersections ↔
      c ∈ comps ∧ minLength ≤ c.length ∧ minIntersections < c.crosses := by
  simp [filterSmallAndIsolated, List.mem_filter]

/-- Claim C10: for every cell whose bbox and blob dimensions are
nonnegative, `free_space_ratio` lies in `[0, 1]`; a zero-area bbox yields
exactly `1` (without any division), and the clamping of the occupied area
keeps the result nonnegative even when the summed blob area exceeds the
bbox area. -/
theorem claim_C10_free_space_bounds (c : TCell)
    (hbw : 0 ≤ c.bbox.width) (hbh : 0 ≤ c.bbox.height)
    (hblobs : ∀ b ∈ c.blobs, 0 ≤ b.width ∧ 0 ≤ b.height) :
    0 ≤ cellFreeSpace c ∧ cellFreeSpace c ≤ 1 ∧
      (c.bbox.area = 0 → cellFreeSpace c = 1) := by
  unfold cellFreeSpace
  by_cases h0 : c.bbox.area = 0
  · simp [h0]
  · simp only [h0, if_false]
    have harea : 0 < c.bbox.area := by
      have : 0 ≤ c.bbox.area := mul_nonneg hbw hbh
      omega
    have hsum : 0 ≤ (c.blobs.map TBBox.area).sum := by
      apply List.sum_nonneg
      intro a ha
      obtain ⟨b, hb, rfl⟩ := List.mem_map.mp ha
      exact mul_nonneg (hblobs b hb).1 (hblobs b hb).2
    have hocc_le : min ((c.blobs.map TBBox.area).sum) c.bbox.area ≤ c.bbox.area :=
      min_le_right _ _
    have hocc_ge : 0 ≤ min ((c.blobs.map TBBox.area).sum) c.bbox.area :=
      le_min hsum (le_of_lt harea)
    have hden : (0 : ℚ) < (c.bbox.area : ℚ) := by exact_mod_cast harea
    constructor
    · apply div_nonneg _ (le_of_lt hden)
      have : (0 : Int) ≤ c.bbox.area - min ((c.blobs.map TBBox.area).sum) c.bbox.area := by
        omega
      exact_mod_cast this
    · refine ⟨?_, fun hc => hc.elim⟩
      rw [div_le_one hden]
      have : c.bbox.area - min ((c.blobs.map TBBox.area).sum) c.bbox.area ≤ c.bbox.area := by
        omega
      exact_mod_cast this

/-- Claim C10, witness: a concrete cell with nonnegative dimensions whose
free-space share is within `[0, 1]`. -/
theorem claim_C10_witness :
    (0 ≤ (⟨⟨0, 0, 10, 10⟩, 0, 0, 1, 1, Option.none, [⟨0, 0, 4, 5⟩]⟩ : TCell).bbox.width ∧
      0 ≤ (⟨⟨0, 0, 10, 10⟩, 0, 0, 1, 1, Option.none, [⟨0, 0, 4, 5⟩]⟩ : TCell).bbox.height ∧
      (∀ b ∈ (⟨⟨0, 0, 10, 10⟩, 0, 0, 1, 1, Option.none, [⟨0, 0, 4, 5⟩]⟩ : TCell).blobs,
        0 ≤ b.width ∧ 0 ≤ b.height)) ∧
    (0 ≤ cellFreeSpace ⟨⟨0, 0, 10, 10⟩, 0, 0, 1, 1, Option.none, [⟨0, 0, 4, 5⟩]⟩ ∧
      cellFreeSpace ⟨⟨0, 0, 10, 10⟩, 0, 0, 1, 1, Option.none, [⟨0, 0, 4, 5⟩]⟩ ≤ 1 ∧
      ((⟨⟨0, 0, 10, 10⟩, 0, 0, 1, 1, Option.none, [⟨0, 0, 4, 5⟩]⟩ : TCell).bbox.area = 0 →
        cellFreeSpace ⟨⟨0, 0, 10, 10⟩, 0, 0, 1, 1, Option.none, [⟨0, 0, 4, 5⟩]⟩ = 1)) := by
  refine ⟨⟨by decide, by decide, by decide⟩, ?_⟩
  exact claim_C10_free_space_bounds _ (by decide) (by decide) (by decide)

/-- Table as in `base_extractor.Table`: bbox plus owned cells. -/
structure TableE where
  bbox : BBoxE
  cells : List CellE
deriving DecidableEq

/-- Page structure produced by per-page extraction. -/
structure PageE where
  tables : List TableE
  paragraphs : List ParagraphE
deriving DecidableEq

/-- Modelled from the spec: the `extract(page_image) -> Page` wrapper of the
missing `PDFExtractor/base_extractor.py` (§7 MalformedInput): a missing or
zero-sized page image yields an empty page structure instead of an
exception; otherwise the per-page pipeline `processF` (the `_process`
method, whose result is a pair of paragraph and table lists) runs. -/
def extractPage (processF : Img → List ParagraphE × List TableE)
    (page : Option Img) : PageE :=
  match page with
  | Option.none => ⟨[], []⟩
  | Option.some img =>
      if img.h = 0 ∨ img.w = 0 then ⟨[], []⟩
      else ⟨(processF img).2, (processF img).1⟩

/-- Claim C4: for a zero-sized or missing page image, per-page extraction
returns the empty structure with no tables and no paragraphs (and, being a
total function, raises no exception). -/
theorem claim_C4_malformed_input (processF : Img → List ParagraphE × List TableE)
    (page : Option Img)
    (hbad : page = Option.none ∨
      ∃ img, page = Option.some img ∧ (img.h = 0 ∨ img.w = 0)) :
    (extractPage processF page).tables = [] ∧
      (extractPage processF page).paragraphs = [] := by
  rcases hbad with h | ⟨img, rfl, hz⟩
  · subst h; exact ⟨rfl, rfl⟩
  · simp [extractPage, hz]

/-- Claim C4, witness: the missing-image case. -/
theorem claim_C4_witness :
    ((Option.none : Option Img) = Option.none ∨
      ∃ img, (Option.none : Option Img) = Option.some img ∧ (img.h = 0 ∨ img.w = 0)) ∧
    ((extractPage (fun _ => ([], [])) Option.none).tables = [] ∧
      (extractPage (fun _ => ([], [])) Option.none).paragraphs = []) :=
  ⟨Or.inl rfl, claim_C4_malformed_input (fun _ => ([], [])) Option.none (Or.inl rfl)⟩

/-- One OCR destination object (a Cell or a Paragraph): its page bbox, and
the `text`/`blobs` fields the dispatcher fills in.  The ROI handed to the
recognizer is cut at `bbox` (for cells the origin is `bbox.padding
CELL_ROI_PADDING` with `CELL_ROI_PADDING = 0`, i.e. the bbox corner
itself). -/
structure OcrTarget where
  bbox : BBoxE
  text : String
  blobs : List BBoxE
deriving DecidableEq

instance : Inhabited OcrTarget := ⟨⟨⟨0, 0, 0, 0⟩, "", []⟩⟩

/-- Outcome of one recognition future, as observed by the aggregation loop
of `ScanExtractor._process`: either a well-formed `(text, word_boxes)`
pair, or a failure (engine error or malformed result).  A failure raised
while iterating over the boxes may occur after part of them was already
appended, so the failure case carries the successfully translated prefix. -/
inductive OcrResult where
  | ok : String → List (Int × Int × Int × Int) → OcrResult
  | err : List (Int × Int × Int × Int) → OcrResult
deriving DecidableEq

/-- Application of one future's outcome to its destination object: on
success the text is stored and every `(x, y, w, h)` box is translated to
page-absolute coordinates with the target's ROI origin and appended to
`blobs`; on failure the text becomes the empty string (the `except` branch
of the source) after any already-translated prefix was appended. -/
def applyOcrResult (t : OcrTarget) (r : OcrResult) : OcrTarget :=
  match r with
  | OcrResult.ok s boxes =>
      { t with text := s
               blobs := t.blobs ++ boxes.map fun q =>
                  translateBox t.bbox.x1 t.bbox.y1 q.1 q.2.1 q.2.2.1 q.2.2.2 }
  | OcrResult.err part =>
      { t with text := ""
               blobs := t.blobs ++ part.map fun q =>
                  translateBox t.bbox.x1 t.bbox.y1 q.1 q.2.1 q.2.2.1 q.2.2.2 }

/-- The OCR fan-out/aggregation of `ScanExtractor._process`: every target
object receives exactly the outcome of its own recognition task (`results`
maps the task index to its outcome); tasks share no state, so the
completion order of the futures is immaterial and the phase is modelled as
the per-target application of outcomes. -/
def dispatchOcr (targets : List OcrTarget) (results : Nat → OcrResult) :
    List OcrTarget :=
  targets.enum.map fun p => applyOcrResult p.2 (results p.1)

theorem dispatchOcr_getD (targets : List OcrTarget) (results : Nat → OcrResult)
    (j : Nat) (hj : j < targets.length) :
    (dispatchOcr targets results).getD j default =
      applyOcrResult (targets.getD j default) (results j) := by
  have hlen : (dispatchOcr targets results).length = targets.length := by
    simp [dispatchOcr]
  rw [List.getD_eq_getElem _ _ (by omega), List.getD_eq_getElem _ _ hj]
  simp [dispatchOcr]

/-- Claim C5: if the recognition task of target `i` fails, that target's
text is the empty string, while every other target's final state is
exactly what it is under any outcome assignment agreeing outside `i`
(sibling tasks are unaffected by the failure); the page's OCR phase still
completes, yielding one result object per target. -/
theorem claim_C5_failure_isolation (targets : List OcrTarget)
    (results results' : Nat → OcrResult) (i : Nat)
    (part : List (Int × Int × Int × Int))
    (hfail : results i = OcrResult.err part)
    (hagree : ∀ j, j ≠ i → results' j = results j) :
    (dispatchOcr targets results).length = targets.length ∧
    (i < targets.length → ((dispatchOcr targets results).getD i default).text = "") ∧
    (∀ j, j ≠ i →
      (dispatchOcr targets results).getD j default =
        (dispatchOcr targets results').getD j default) := by
  refine ⟨by simp [dispatchOcr], ?_, ?_⟩
  · intro hi
    rw [dispatchOcr_getD targets results i hi, hfail]
    rfl
  · intro j hj
    by_cases hjl : j < targets.length
    · rw [dispatchOcr_getD targets results j hjl,
        dispatchOcr_getD targets results' j hjl, hagree j hj]
    · have h1 : (dispatchOcr targets results).length ≤ j := by
        simp [dispatchOcr]; omega
      have h2 : (dispatchOcr targets results').length ≤ j := by
        simp [dispatchOcr]; omega
      rw [List.getD_eq_default _ _ h1, List.getD_eq_default _ _ h2]

/-- Claim C5, witness: two targets; the first task fails after yielding no
boxes, the second succeeds; the failing target ends with empty text and
the sibling target's result is unchanged when the failing outcome is
replaced by a success. -/
theorem claim_C5_witness :
    ((fun n => if n = 0 then OcrResult.err [] else OcrResult.ok "a" [(1, 2, 3, 4)]) 0
        = OcrResult.err [] ∧
      (∀ j, j ≠ 0 →
        (fun n => if n = 0 then OcrResult.ok "x" [] else OcrResult.ok "a" [(1, 2, 3, 4)]) j
          = (fun n => if n = 0 then OcrResult.err [] else OcrResult.ok "a" [(1, 2, 3, 4)]) j)) ∧
    ((dispatchOcr [⟨⟨0, 0, 5, 5⟩, "", []⟩, ⟨⟨10, 10, 20, 20⟩, "", []⟩]
        (fun n => if n = 0 then OcrResult.err [] else OcrResult.ok "a" [(1, 2, 3, 4)])).length
      = ([⟨⟨0, 0, 5, 5⟩, "", []⟩, ⟨⟨10, 10, 20, 20⟩, "", []⟩] : List OcrTarget).length ∧
    (0 < ([⟨⟨0, 0, 5, 5⟩, "", []⟩, ⟨⟨10, 10, 20, 20⟩, "", []⟩] : List OcrTarget).length →
      ((dispatchOcr [⟨⟨0, 0, 5, 5⟩, "", []⟩, ⟨⟨10, 10, 20, 20⟩, "", []⟩]
        (fun n => if n = 0 then OcrResult.err [] else OcrResult.ok "a" [(1, 2, 3, 4)])).getD 0
          default).text = "") ∧
    (∀ j, j ≠ 0 →
      (dispatchOcr [⟨⟨0, 0, 5, 5⟩, "", []⟩, ⟨⟨10, 10, 20, 20⟩, "", []⟩]
        (fun n => if n = 0 then OcrResult.err [] else OcrResult.ok "a" [(1, 2, 3, 4)])).getD j
          default =
      (dispatchOcr [⟨⟨0, 0, 5, 5⟩, "", []⟩, ⟨⟨10, 10, 20, 20⟩, "", []⟩]
        (fun n => if n = 0 then OcrResult.ok "x" [] else OcrResult.ok "a" [(1, 2, 3, 4)])).getD j
          default)) :=
  ⟨⟨rfl, fun j hj => by simp [hj]⟩,
    claim_C5_failure_isolation _ _ _ 0 [] rfl (fun j hj => by simp [hj])⟩

/-- Stable insertion of a paragraph into a list sorted by ascending
`bbox.y1`: the new element goes after every element whose key is not
greater, matching the stability of Python's `list.sort`. -/
def insertByY1 : List ParagraphE → ParagraphE → List ParagraphE
  | [], p => [p]
  | q :: rest, p =>
      if q.bbox.y1 ≤ p.bbox.y1 then q :: insertByY1 rest p else p :: q :: rest

/-- Stable ascending sort by `bbox.y1` (`paragraphs.sort(key=lambda p:
p.bbox.y1)` of the source). -/
def sortByY1 (l : List ParagraphE) : List ParagraphE := l.foldl insertByY1 []

/-- `header_region_y_end` of `_extract_paragraph_blocks`: 0 without table
contours, otherwise `max(0, first_table_y - margin)`. -/
def headerRegionYEnd (contours : List (Int × Int × Int × Int)) (margin : Int) : Int :=
  match contours with
  | [] => 0
  | q :: _ => max 0 (q.2.1 - margin)

/-- `footer_region_y_start` of `_extract_paragraph_blocks`: `h_img` without
table contours, otherwise `min(h_img, last_table_y + last_table_h +
margin)`. -/
def footerRegionYStart (hImg : Int) (contours : List (Int × Int × Int × Int))
    (margin : Int) : Int :=
  match contours with
  | [] => hImg
  | q :: rest =>
      min hImg ((rest.getLastD q).2.1 + (rest.getLastD q).2.2.2 + margin)

/-- The classification loop of `_extract_paragraph_blocks` over the
accepted boxes.  The loop variable `current_para_type` is initialized to
NONE once before the loop and, when table contours exist and a box is
neither in the header region nor in the footer region, it is *not*
re-assigned, so the value carried over from the previous iteration is
used — this faithfully mirrors the source. -/
def classifyAux (hasTables : Bool) (headerEnd footerStart : Int) :
    ParaType → List BBoxE → List ParagraphE
  | _, [] => []
  | ty, b :: rest =>
      let ty' :=
        if hasTables then
          if b.y2 ≤ headerEnd then ParaType.header
          else if b.y1 ≥ footerStart then ParaType.footer
          else ty
        else ParaType.none
      ⟨b, ty', ""⟩ :: classifyAux hasTables headerEnd footerStart ty' rest

/-- Classification and final ordering of the accepted paragraph boxes in
`ScanExtractor._extract_paragraph_blocks` (source lines 562–599): assign a
paragraph type per box given the table contours (sorted by y) and sort the
resulting paragraphs top-to-bottom by `bbox.y1`. -/
def classifyParagraphBlocks (hImg : Int) (contours : List (Int × Int × Int × Int))
    (margin : Int) (acceptedBoxes : List BBoxE) : List ParagraphE :=
  sortByY1 (classifyAux (!contours.isEmpty)
    (headerRegionYEnd contours margin)
    (footerRegionYStart hImg contours margin)
    ParaType.none acceptedBoxes)

/-- Claim C6, divergence witness: on a 100-pixel-high page with one table
occupying y ∈ [40, 60] and margin 2, box A = (0,0)–(10,10) lies entirely
above the header boundary 38 and is classified HEADER, but box B =
(0,45)–(10,55) lies strictly between the header boundary and the footer
boundary 62 and must be NONE per the claim (and per the source's own
comment "Иначе остается NONE"); the code instead reuses the stale loop
variable and also labels B HEADER. -/
theorem claim_C6_code_divergence :
    (classifyParagraphBlocks 100 [(0, 40, 50, 20)] 2
        [⟨0, 0, 10, 10⟩, ⟨0, 45, 10, 55⟩]).map ParagraphE.type
      = [ParaType.header, ParaType.header] ∧
    ¬ ((⟨0, 45, 10, 55⟩ : BBoxE).y2 ≤ headerRegionYEnd [(0, 40, 50, 20)] 2) ∧
    ¬ ((⟨0, 45, 10, 55⟩ : BBoxE).y1 ≥ footerRegionYStart 100 [(0, 40, 50, 20)] 2) := by
  refine ⟨?_, by decide, by decide⟩
  rfl

/-- Stable insertion of a word box into a list sorted by ascending `y1`
(the key used by `sorted(cell.blobs, key=lambda b: b.y1)`). -/
def insertBlobByY1 : List BBoxE → BBoxE → List BBoxE
  | [], p => [p]
  | q :: rest, p =>
      if q.y1 ≤ p.y1 then q :: insertBlobByY1 rest p else p :: q :: rest

/-- Stable ascending sort of word boxes by their top edge `y1`. -/
def sortBlobsByY1 (l : List BBoxE) : List BBoxE := l.foldl insertBlobByY1 []

/-- Join condition of `_get_lines_in_cell`: box `b` joins the running line
whose last box is `last` when `abs(b.y1 - last.y1) <= last.height / 2`;
the float halving is modelled exactly by doubling both sides. -/
def lineJoinCond (last b : BBoxE) : Bool :=
  decide (2 * |b.y1 - last.y1| ≤ last.height)

/-- The grouping loop of `_get_lines_in_cell`: `lines` are the closed
lines, `cur` the running line, `last` its last box (`current_line[-1]`). -/
def groupGo : List (List BBoxE) → List BBoxE → BBoxE → List BBoxE → List (List BBoxE)
  | lines, cur, _, [] => lines ++ [cur]
  | lines, cur, last, b :: rest =>
      if lineJoinCond last b then groupGo lines (cur ++ [b]) b rest
      else groupGo (lines ++ [cur]) [b] b rest

/-- `ScanExtractor._get_lines_in_cell`: group a cell's word boxes, sorted
by top edge, into text-lines. -/
def getLinesInCell (cell : CellE) : List (List BBoxE) :=
  match sortBlobsByY1 cell.blobs with
  | [] => []
  | b :: rest => groupGo [] [b] b rest

/-- Two consecutive emitted text-lines are separated: the join condition
fails between the last box of the earlier line and the first box of the
later line. -/
def lineBreakRel (l1 l2 : List BBoxE) : Prop :=
  ∀ a ∈ l1.getLast?, ∀ b ∈ l2.head?, lineJoinCond a b = false

theorem groupGo_accum (rest : List BBoxE) : ∀ lines cur last,
    groupGo lines cur last rest = lines ++ groupGo [] cur last rest := by
  induction rest with
  | nil => intro lines cur last; simp [groupGo]
  | cons b rest ih =>
      intro lines cur last
      by_cases h : lineJoinCond last b = true
      · simp only [groupGo, h, if_true]
        rw [ih]
      · simp only [groupGo, h, Bool.false_eq_true, if_false, List.nil_append]
        rw [ih, ih [cur]]
        simp

theorem groupGo_flatten (rest : List BBoxE) : ∀ cur last,
    (groupGo [] cur last rest).flatten = cur ++ rest := by
  induction rest with
  | nil => intro cur last; simp [groupGo]
  | cons b rest ih =>
      intro cur last
      by_cases h : lineJoinCond last b = true
      · simp only [groupGo, h, if_true]
        rw [ih]; simp
      · simp only [groupGo, h, Bool.false_eq_true, if_false]
        rw [groupGo_accum]
        simp only [List.nil_append, List.singleton_append, List.flatten_cons]
        rw [ih]
        simp

theorem groupGo_head (rest : List BBoxE) : ∀ cur last, ∃ tail lines,
    groupGo [] cur last rest = (cur ++ tail) :: lines := by
  induction rest with
  | nil => intro cur last; exact ⟨[], [], by simp [groupGo]⟩
  | cons b rest ih =>
      intro cur last
      by_cases h : lineJoinCond last b = true
      · obtain ⟨tail, lines, heq⟩ := ih (cur ++ [b]) b
        exact ⟨[b] ++ tail, lines, by
          simp only [groupGo, h, if_true]
          rw [heq]; simp⟩
      · exact ⟨[], groupGo [] [b] b rest, by
          simp only [groupGo, h, Bool.false_eq_true, if_false]
          rw [groupGo_accum]; simp⟩

theorem groupGo_lines_ok (rest : List BBoxE) : ∀ cur last,
    cur ≠ [] → cur.getLast? = Option.some last →
    List.Chain' (fun a b => lineJoinCond a b = true) cur →
    ∀ line ∈ groupGo [] cur last rest,
      line ≠ [] ∧ List.Chain' (fun a b => lineJoinCond a b = true) line := by
  induction rest with
  | nil =>
      intro cur last hne _ hchain line hline
      simp only [groupGo, List.nil_append, List.mem_singleton] at hline
      exact hline ▸ ⟨hne, hchain⟩
  | cons b rest ih =>
      intro cur last hne hlast hchain line hline
      by_cases h : lineJoinCond last b = true
      · simp only [groupGo, h, if_true] at hline
        refine ih (cur ++ [b]) b (by simp) (by simp) ?_ line hline
        rw [List.chain'_append]
        refine ⟨hchain, List.chain'_singleton b, ?_⟩
        intro x hx y hy
        rw [hlast] at hx
        simp only [Option.mem_def, Option.some.injEq] at hx
        simp only [List.head?_cons, Option.mem_def, Option.some.injEq] at hy
        subst hx
        subst hy
        exact h
      · simp only [groupGo, h, Bool.false_eq_true, if_false] at hline
        rw [groupGo_accum] at hline
        simp only [List.nil_append, List.cons_append, List.mem_cons] at hline
        rcases hline with rfl | hline
        · exact ⟨hne, hchain⟩
        · exact ih [b] b (by simp) (by simp) (List.chain'_singleton b) line hline

theorem groupGo_breaks (rest : List BBoxE) : ∀ cur last,
    cur.getLast? = Option.some last →
    List.Chain' lineBreakRel (groupGo [] cur last rest) := by
  induction rest with
  | nil =>
      intro cur last _
      simp only [groupGo, List.nil_append]
      exact List.chain'_singleton cur
  | cons b rest ih =>
      intro cur last hlast
      by_cases h : lineJoinCond last b = true
      · simp only [groupGo, h, if_true]
        exact ih (cur ++ [b]) b (by simp)
      · simp only [groupGo, h, Bool.false_eq_true, if_false]
        rw [groupGo_accum]
        simp only [List.nil_append, List.cons_append]
        rw [List.chain'_cons']
        refine ⟨?_, ih [b] b (by simp)⟩
        intro y hy
        obtain ⟨tail, lines, heq⟩ := groupGo_head rest [b] b
        rw [heq] at hy
        simp only [List.head?_cons, Option.mem_def, Option.some.injEq] at hy
        intro a ha bb hbb
        rw [hlast] at ha
        simp only [Option.mem_def, Option.some.injEq] at ha
        rw [← hy] at hbb
        simp only [List.cons_append, List.head?_cons, Option.mem_def,
          Option.some.injEq] at hbb
        subst ha
        subst hbb
        simp only [Bool.not_eq_true] at h
        exact h

/-- Claim C8, counterexample: two word boxes (0,0)–(10,10) and
(0,2)–(10,100): their top edges differ by 2 ≤ 10/2, so the code keeps them
in one text-line, although the second box's vertical center 51 differs
from the first box's vertical center 5 (and from its top edge 0) by far
more than half the line's height — per the claim a new line should have
started. -/
theorem claim_C8_counterexample :
    getLinesInCell ⟨⟨0, 0, 0, 0⟩, 0, 0, 1, 1, "", [⟨0, 0, 10, 10⟩, ⟨0, 2, 10, 100⟩]⟩
        = [[⟨0, 0, 10, 10⟩, ⟨0, 2, 10, 100⟩]] ∧
      (⟨0, 0, 10, 10⟩ : BBoxE).height <
        2 * |((⟨0, 2, 10, 100⟩ : BBoxE).y1 + (⟨0, 2, 10, 100⟩ : BBoxE).y2) / 2 -
              ((⟨0, 0, 10, 10⟩ : BBoxE).y1 + (⟨0, 0, 10, 10⟩ : BBoxE).y2) / 2| ∧
      (⟨0, 0, 10, 10⟩ : BBoxE).height <
        2 * |((⟨0, 2, 10, 100⟩ : BBoxE).y1 + (⟨0, 2, 10, 100⟩ : BBoxE).y2) / 2 -
              (⟨0, 0, 10, 10⟩ : BBoxE).y1| := by
  refine ⟨by rfl, by decide, by decide⟩

/-- Claim C8, amended: when grouping a cell's word boxes (sorted by top
edge `y1`) into text-lines, a new line starts exactly when the next box's
*top edge* differs from the *top edge of the running line's last box* by
more than half that last box's height: the emitted lines concatenate back
to the sorted box list, within each (nonempty) line every consecutive pair
satisfies the join condition, and across consecutive lines the boundary
pair violates it. -/
theorem claim_C8_amended (cell : CellE) :
    (getLinesInCell cell).flatten = sortBlobsByY1 cell.blobs ∧
    (∀ line ∈ getLinesInCell cell,
        line ≠ [] ∧ List.Chain' (fun a b => lineJoinCond a b = true) line) ∧
    List.Chain' lineBreakRel (getLinesInCell cell) := by
  unfold getLinesInCell
  cases hs : sortBlobsByY1 cell.blobs with
  | nil => simp
  | cons b rest =>
      exact ⟨groupGo_flatten rest [b] b,
        groupGo_lines_ok rest [b] b (by simp) (by simp) (List.chain'_singleton b),
        groupGo_breaks rest [b] b (by simp)⟩

/-- Zone membership test of `_create_split_cells`: a blob belongs to the
zone `[zStart, zEnd)` when its vertical center `(y1 + y2) / 2` satisfies
`zStart <= center < zEnd`; the float halving is modelled exactly by
doubling. -/
def blobCenterInZone (zStart zEnd : Int) (b : BBoxE) : Bool :=
  decide (2 * zStart ≤ b.y1 + b.y2) && decide (b.y1 + b.y2 < 2 * zEnd)

/-- `row_y_min = min(cell.bbox.y1 for cell in row_cells)` (the source
raises on an empty row; the `[]` case here is junk and every theorem about
it assumes a nonempty row). -/
def rowYMin : List CellE → Int
  | [] => 0
  | c :: cs => cs.foldl (fun m q => min m q.bbox.y1) c.bbox.y1

/-- `row_y_max = max(cell.bbox.y2 for cell in row_cells)`. -/
def rowYMax : List CellE → Int
  | [] => 0
  | c :: cs => cs.foldl (fun m q => max m q.bbox.y2) c.bbox.y2

/-- `y_boundaries = [row_y_min] + split_positions + [row_y_max]`. -/
def zoneBoundaries (rowCells : List CellE) (splitPositions : List Int) : List Int :=
  rowYMin rowCells :: (splitPositions ++ [rowYMax rowCells])

/-- `zones = list(zip(y_boundaries[:-1], y_boundaries[1:]))`. -/
def zonesOf (l : List Int) : List (Int × Int) := l.zip l.tail

/-- The cell emitted by `_create_split_cells` for one zone and one source
cell: bbox clipped to the zone's vertical extent, the source cell's column
and colspan, `rowspan = 1`, the blobs whose center falls in the zone, and
either freshly recognized (stripped) zone text or the empty string for an
empty zone.  `ocrF` abstracts `self.ocr.extract` on the cropped region
`image[y_start:y_end, x1:x2]`. -/
def mkZoneCell (ocrF : Int → Int → Int → Int → String) (rowIndex : Nat)
    (zStart zEnd : Int) (cell : CellE) : CellE :=
  let blobsInZone := cell.blobs.filter (blobCenterInZone zStart zEnd)
  if blobsInZone.isEmpty then
    ⟨⟨cell.bbox.x1, zStart, cell.bbox.x2, zEnd⟩, rowIndex, cell.col,
      cell.colspan, 1, "", []⟩
  else
    ⟨⟨cell.bbox.x1, zStart, cell.bbox.x2, zEnd⟩, rowIndex, cell.col,
      cell.colspan, 1, (ocrF zStart zEnd cell.bbox.x1 cell.bbox.x2).trim,
      blobsInZone⟩

/-- `ScanExtractor._create_split_cells`: for every zone (in order) and
every original cell of the row, emit one new cell; returns the new cells
and the next row index `start_row_index + len(zones)`. -/
def createSplitCells (ocrF : Int → Int → Int → Int → String)
    (rowCells : List CellE) (splitPositions : List Int)
    (startRowIndex : Nat) : List CellE × Nat :=
  let zones := zonesOf (zoneBoundaries rowCells splitPositions)
  (zones.enum.flatMap fun zi =>
      rowCells.map fun cell =>
        mkZoneCell ocrF (startRowIndex + zi.1) zi.2.1 zi.2.2 cell,
   startRowIndex + zones.length)

theorem mkZoneCell_blobs (ocrF : Int → Int → Int → Int → String)
    (rowIndex : Nat) (zStart zEnd : Int) (cell : CellE) :
    (mkZoneCell ocrF rowIndex zStart zEnd cell).blobs =
      cell.blobs.filter (blobCenterInZone zStart zEnd) := by
  unfold mkZoneCell
  by_cases h : (cell.blobs.filter (blobCenterInZone zStart zEnd)).isEmpty
  · simp only [h, if_true]
    exact (List.isEmpty_iff.mp h).symm
  · simp [h]

theorem zonesOf_cons_cons (a c : Int) (l : List Int) :
    zonesOf (a :: c :: l) = (a, c) :: zonesOf (c :: l) := rfl

theorem zones_fst_ge : ∀ (l : List Int) (a : Int),
    List.Chain' (· ≤ ·) (a :: l) → ∀ z ∈ zonesOf (a :: l), a ≤ z.1 := by
  intro l
  induction l with
  | nil => intro a _ z hz; simp [zonesOf] at hz
  | cons c l ih =>
      intro a hchain z hz
      rw [zonesOf_cons_cons] at hz
      rcases List.mem_cons.mp hz with rfl | hz
      · exact le_refl a
      · have hac : a ≤ c := (List.chain'_cons.mp hchain).1
        exact le_trans hac (ih c (List.chain'_cons.mp hchain).2 z hz)

theorem countP_zones_eq_one : ∀ (rest : List Int) (a : Int) (b : BBoxE),
    rest ≠ [] → List.Chain' (· ≤ ·) (a :: rest) →
    2 * a ≤ b.y1 + b.y2 → b.y1 + b.y2 < 2 * rest.getLastD a →
    (zonesOf (a :: rest)).countP (fun z => blobCenterInZone z.1 z.2 b) = 1 := by
  intro rest
  induction rest with
  | nil => intro a b hne _ _ _; exact absurd rfl hne
  | cons c rest ih =>
      intro a b _ hchain hlo hhi
      rw [zonesOf_cons_cons]
      by_cases hv : b.y1 + b.y2 < 2 * c
      · have hz0 : blobCenterInZone a c b = true := by
          simp only [blobCenterInZone, Bool.and_eq_true, decide_eq_true_eq]
          exact ⟨hlo, hv⟩
        rw [List.countP_cons]
        have hrest : (zonesOf (c :: rest)).countP
            (fun z => blobCenterInZone z.1 z.2 b) = 0 := by
          rw [List.countP_eq_zero]
          intro z hz
          have hcz : c ≤ z.1 :=
            zones_fst_ge rest c (List.chain'_cons.mp hchain).2 z hz
          simp only [blobCenterInZone, Bool.and_eq_true, decide_eq_true_eq,
            not_and, not_lt]
          intro hz1
          omega
        rw [hrest, hz0]
        simp
      · have hz0 : blobCenterInZone a c b = false := by
          simp only [blobCenterInZone, Bool.and_eq_false_iff, decide_eq_false_iff_not]
          right
          omega
        rw [List.countP_cons, hz0]
        simp only [Bool.false_eq_true, if_false, add_zero]
        cases rest with
        | nil =>
            exfalso
            simp only [List.getLastD_cons, List.getLastD_nil] at hhi
            omega
        | cons d rest' =>
            refine ih c b (by simp) (List.chain'_cons.mp hchain).2 (by omega) ?_
            rw [List.getLastD_cons] at hhi
            exact hhi

theorem sum_map_ite_count {α : Type} (l : List α) (p : α → Bool) (T : Nat) :
    (l.map fun z => if p z then T else 0).sum = l.countP p * T := by
  induction l with
  | nil => simp
  | cons z l ih =>
      by_cases h : p z = true
      · simp [h, List.countP_cons, ih]
        ring
      · simp [h, List.countP_cons, ih]

theorem count_filter_eq (p : BBoxE → Bool) (b : BBoxE) (l : List BBoxE) :
    List.count b (l.filter p) = if p b = true then List.count b l else 0 := by
  by_cases h : p b = true
  · rw [List.count_filter h, if_pos h]
  · rw [if_neg h]
    exact List.count_eq_zero.mpr (fun hm => h (List.of_mem_filter hm))

/-- Claim C3: for a (nonempty) row whose zone boundaries are monotone and
whose blobs' vertical centers all lie in the row's vertical extent (which
is what holds for rows the splitter actually splits: split positions are
midpoints between blob clusters inside the row), `_create_split_cells`
conserves word boxes — the blobs of the new cells across all zones are a
permutation of the blobs of the original row's cells (no box duplicated or
dropped) — and emits one cell per zone per original cell, a blob-less zone
yielding a cell with empty text rather than being omitted. -/
theorem claim_C3_row_split_conservation
    (ocrF : Int → Int → Int → Int → String) (rowCells : List CellE)
    (splitPositions : List Int) (startRowIndex : Nat)
    (hne : rowCells ≠ [])
    (hchain : List.Chain' (· ≤ ·) (zoneBoundaries rowCells splitPositions))
    (hblobs : ∀ cell ∈ rowCells, ∀ b ∈ cell.blobs,
        2 * rowYMin rowCells ≤ b.y1 + b.y2 ∧ b.y1 + b.y2 < 2 * rowYMax rowCells) :
    ((createSplitCells ocrF rowCells splitPositions startRowIndex).1.flatMap
        CellE.blobs).Perm (rowCells.flatMap CellE.blobs) ∧
    (createSplitCells ocrF rowCells splitPositions startRowIndex).1.length
        = (splitPositions.length + 1) * rowCells.length ∧
    ∀ cz ∈ (createSplitCells ocrF rowCells splitPositions startRowIndex).1,
        cz.blobs = [] → cz.text = "" := by
  have hzlen : (zonesOf (zoneBoundaries rowCells splitPositions)).length
      = splitPositions.length + 1 := by
    simp [zonesOf, zoneBoundaries, List.length_zip]
  refine ⟨?_, ?_, ?_⟩
  · rw [List.perm_iff_count]
    intro b
    have hstruct :
        (createSplitCells ocrF rowCells splitPositions startRowIndex).1.flatMap
            CellE.blobs
          = (zonesOf (zoneBoundaries rowCells splitPositions)).enum.flatMap
              (fun zi => rowCells.flatMap fun cell =>
                cell.blobs.filter (blobCenterInZone zi.2.1 zi.2.2)) := by
      simp only [createSplitCells]
      rw [List.flatMap_assoc]
      congr 1
      funext zi
      rw [List.flatMap_map]
      congr 1
      funext cell
      exact mkZoneCell_blobs ocrF (startRowIndex + zi.1) zi.2.1 zi.2.2 cell
    rw [hstruct, List.count_flatMap]
    have hcomp : ∀ zi : Nat × (Int × Int),
        (List.count b ∘ fun zi : Nat × (Int × Int) =>
            rowCells.flatMap fun cell =>
              cell.blobs.filter (blobCenterInZone zi.2.1 zi.2.2)) zi
          = if blobCenterInZone zi.2.1 zi.2.2 b = true then
              List.count b (rowCells.flatMap CellE.blobs) else 0 := by
      intro zi
      simp only [Function.comp]
      rw [List.count_flatMap, List.count_flatMap]
      by_cases h : blobCenterInZone zi.2.1 zi.2.2 b = true
      · rw [if_pos h]
        congr 1
        apply List.map_congr_left
        intro cell _
        simp only [Function.comp]
        rw [count_filter_eq, if_pos h]
      · rw [if_neg h]
        apply List.sum_eq_zero
        intro x hx
        obtain ⟨cell, _, rfl⟩ := List.mem_map.mp hx
        simp only [Function.comp]
        rw [count_filter_eq, if_neg h]
    rw [List.map_congr_left (fun zi _ => hcomp zi)]
    have hsnd :
        ((zonesOf (zoneBoundaries rowCells splitPositions)).enum.map
            fun zi : Nat × (Int × Int) =>
              if blobCenterInZone zi.2.1 zi.2.2 b = true then
                List.count b (rowCells.flatMap CellE.blobs) else 0)
          = ((zonesOf (zoneBoundaries rowCells splitPositions)).enum.map
              Prod.snd).map fun z : Int × Int =>
                if blobCenterInZone z.1 z.2 b = true then
                  List.count b (rowCells.flatMap CellE.blobs) else 0 := by
      rw [List.map_map]
      rfl
    rw [hsnd, List.enum_map_snd, sum_map_ite_count]
    by_cases hT : List.count b (rowCells.flatMap CellE.blobs) = 0
    · rw [hT]; simp
    · have hb : b ∈ rowCells.flatMap CellE.blobs := by
        by_contra hnb
        exact hT (List.count_eq_zero.mpr hnb)
      obtain ⟨cell, hcell, hbc⟩ := List.mem_flatMap.mp hb
      have hbd := hblobs cell hcell b hbc
      have hone : (zonesOf (zoneBoundaries rowCells splitPositions)).countP
          (fun z => blobCenterInZone z.1 z.2 b) = 1 := by
        apply countP_zones_eq_one (splitPositions ++ [rowYMax rowCells])
            (rowYMin rowCells) b (by simp) hchain hbd.1
        have hlast : (splitPositions ++ [rowYMax rowCells]).getLastD
            (rowYMin rowCells) = rowYMax rowCells := by simp
        rw [hlast]
        exact hbd.2
      rw [hone, one_mul]
  · simp only [createSplitCells]
    rw [List.length_flatMap]
    have hmap : ((zonesOf (zoneBoundaries rowCells splitPositions)).enum.map
        (List.length ∘ fun zi : Nat × (Int × Int) =>
          rowCells.map fun cell =>
            mkZoneCell ocrF (startRowIndex + zi.1) zi.2.1 zi.2.2 cell))
        = (zonesOf (zoneBoundaries rowCells splitPositions)).enum.map
            fun _ => rowCells.length := by
      apply List.map_congr_left
      intro zi _
      simp
    rw [hmap]
    simp [List.map_const, List.enum_length, hzlen]
  · intro cz hcz hempty
    simp only [createSplitCells, List.mem_flatMap, List.mem_map] at hcz
    obtain ⟨zi, _, cell, _, rfl⟩ := hcz
    unfold mkZoneCell at hempty ⊢
    by_cases h : (cell.blobs.filter (blobCenterInZone zi.2.1 zi.2.2)).isEmpty
    · simp only [h, if_true]
    · exfalso
      simp only [h, Bool.false_eq_true, if_false] at hempty
      exact h (by rw [List.isEmpty_iff]; exact hempty)

/-- Claim C3, witness: one cell spanning y ∈ [0, 10] with two word boxes
(centers 2 and 8) split at position 5 into two zones; the hypotheses hold
and the theorem applies. -/
theorem claim_C3_witness :
    (([⟨⟨0, 0, 10, 10⟩, 0, 0, 1, 1, "", [⟨0, 0, 10, 4⟩, ⟨0, 6, 10, 10⟩]⟩] : List CellE) ≠ [] ∧
     List.Chain' (· ≤ ·) (zoneBoundaries
        [⟨⟨0, 0, 10, 10⟩, 0, 0, 1, 1, "", [⟨0, 0, 10, 4⟩, ⟨0, 6, 10, 10⟩]⟩] [5]) ∧
     (∀ cell ∈ ([⟨⟨0, 0, 10, 10⟩, 0, 0, 1, 1, "", [⟨0, 0, 10, 4⟩, ⟨0, 6, 10, 10⟩]⟩] : List CellE),
        ∀ b ∈ cell.blobs,
          2 * rowYMin [⟨⟨0, 0, 10, 10⟩, 0, 0, 1, 1, "", [⟨0, 0, 10, 4⟩, ⟨0, 6, 10, 10⟩]⟩]
              ≤ b.y1 + b.y2 ∧
            b.y1 + b.y2 <
              2 * rowYMax [⟨⟨0, 0, 10, 10⟩, 0, 0, 1, 1, "", [⟨0, 0, 10, 4⟩, ⟨0, 6, 10, 10⟩]⟩])) ∧
    (((createSplitCells (fun _ _ _ _ => "t")
          [⟨⟨0, 0, 10, 10⟩, 0, 0, 1, 1, "", [⟨0, 0, 10, 4⟩, ⟨0, 6, 10, 10⟩]⟩] [5] 3).1.flatMap
        CellE.blobs).Perm
        (([⟨⟨0, 0, 10, 10⟩, 0, 0, 1, 1, "", [⟨0, 0, 10, 4⟩, ⟨0, 6, 10, 10⟩]⟩] : List CellE).flatMap
          CellE.blobs) ∧
      (createSplitCells (fun _ _ _ _ => "t")
          [⟨⟨0, 0, 10, 10⟩, 0, 0, 1, 1, "", [⟨0, 0, 10, 4⟩, ⟨0, 6, 10, 10⟩]⟩] [5] 3).1.length
        = (([5] : List Int).length + 1) *
            ([⟨⟨0, 0, 10, 10⟩, 0, 0, 1, 1, "", [⟨0, 0, 10, 4⟩, ⟨0, 6, 10, 10⟩]⟩] : List CellE).length ∧
      ∀ cz ∈ (createSplitCells (fun _ _ _ _ => "t")
          [⟨⟨0, 0, 10, 10⟩, 0, 0, 1, 1, "", [⟨0, 0, 10, 4⟩, ⟨0, 6, 10, 10⟩]⟩] [5] 3).1,
        cz.blobs = [] → cz.text = "") :=
  ⟨⟨by decide,
      by norm_num [zoneBoundaries, rowYMin, rowYMax, List.chain'_cons],
      by decide⟩,
    claim_C3_row_split_conservation (fun _ _ _ _ => "t")
      [⟨⟨0, 0, 10, 10⟩, 0, 0, 1, 1, "", [⟨0, 0, 10, 4⟩, ⟨0, 6, 10, 10⟩]⟩] [5] 3
      (by decide)
      (by norm_num [zoneBoundaries, rowYMin, rowYMax, List.chain'_cons])
      (by decide)⟩

theorem growColAux_fst_ge (pureV : Img) (xs : List Nat) (y0 y1 : Nat) :
    ∀ (fuel nextC : Nat) (acc : Nat × Nat),
      acc.1 ≤ (growColAux pureV xs y0 y1 fuel nextC acc).1 := by
  intro fuel
  induction fuel with
  | zero => intro nextC acc; exact le_refl _
  | succ fuel ih =>
      intro nextC acc
      rw [growColAux]
      split
      · exact le_refl _
      · split
        · exact le_refl _
        · exact le_trans (Nat.le_succ _)
            (ih (nextC + 1) (acc.1 + 1, xs.getD (nextC + 1) 0))

theorem growColAux_fst_le (pureV : Img) (xs : List Nat) (y0 y1 : Nat) :
    ∀ (fuel nextC : Nat) (acc : Nat × Nat),
      (growColAux pureV xs y0 y1 fuel nextC acc).1 ≤ acc.1 + fuel := by
  intro fuel
  induction fuel with
  | zero => intro nextC acc; exact Nat.le_add_right _ 0
  | succ fuel ih =>
      intro nextC acc
      rw [growColAux]
      split
      · omega
      · split
        · omega
        · have := ih (nextC + 1) (acc.1 + 1, xs.getD (nextC + 1) 0)
          omega

theorem growRowAux_fst_ge (pureH : Img) (ys : List Nat) (x0 x1 : Nat) :
    ∀ (fuel nextR : Nat) (acc : Nat × Nat),
      acc.1 ≤ (growRowAux pureH ys x0 x1 fuel nextR acc).1 := by
  intro fuel
  induction fuel with
  | zero => intro nextR acc; exact le_refl _
  | succ fuel ih =>
      intro nextR acc
      rw [growRowAux]
      split
      · exact le_refl _
      · split
        · exact le_refl _
        · exact le_trans (Nat.le_succ _)
            (ih (nextR + 1) (acc.1 + 1, ys.getD (nextR + 1) 0))

theorem growRowAux_fst_le (pureH : Img) (ys : List Nat) (x0 x1 : Nat) :
    ∀ (fuel nextR : Nat) (acc : Nat × Nat),
      (growRowAux pureH ys x0 x1 fuel nextR acc).1 ≤ acc.1 + fuel := by
  intro fuel
  induction fuel with
  | zero => intro nextR acc; exact Nat.le_add_right _ 0
  | succ fuel ih =>
      intro nextR acc
      rw [growRowAux]
      split
      · omega
      · split
        · omega
        · have := ih (nextR + 1) (acc.1 + 1, ys.getD (nextR + 1) 0)
          omega

theorem gridCR_fst_ge (pureV : Img) (xs ys : List Nat) (nCols spanMode r c : Nat) :
    1 ≤ (gridCR pureV xs ys nCols spanMode r c).1 := by
  unfold gridCR growCol
  split
  · exact growColAux_fst_ge pureV xs _ _ _ _ (1, xs.getD (c + 1) 0)
  · exact le_refl 1

theorem gridCR_fst_le (pureV : Img) (xs ys : List Nat) (nCols spanMode r c : Nat)
    (hc : c < nCols) : c + (gridCR pureV xs ys nCols spanMode r c).1 ≤ nCols := by
  unfold gridCR
  split
  · have := growColAux_fst_le pureV xs (ys.getD r 0) (ys.getD (r + 1) 0)
      (nCols - (c + 1)) (c + 1) (1, xs.getD (c + 1) 0)
    unfold growCol
    omega
  · omega

theorem gridRR_fst_ge (pureH : Img) (xs ys : List Nat) (nRows spanMode crx r c : Nat) :
    1 ≤ (gridRR pureH xs ys nRows spanMode crx r c).1 := by
  unfold gridRR growRow
  split
  · exact growRowAux_fst_ge pureH ys _ _ _ _ (1, ys.getD (r + 1) 0)
  · exact le_refl 1

theorem gridRR_fst_le (pureH : Img) (xs ys : List Nat) (nRows spanMode crx r c : Nat)
    (hr : r < nRows) : r + (gridRR pureH xs ys nRows spanMode crx r c).1 ≤ nRows := by
  unfold gridRR
  split
  · have := growRowAux_fst_le pureH ys (xs.getD c 0) crx
      (nRows - (r + 1)) (r + 1) (1, ys.getD (r + 1) 0)
    unfold growRow
    omega
  · omega

theorem gridRR_mode1 (pureH : Img) (xs ys : List Nat) (nRows crx r c : Nat) :
    gridRR pureH xs ys nRows 1 crx r c = (1, ys.getD (r + 1) 0) := by
  simp [gridRR]

theorem gridCR_mode2 (pureV : Img) (xs ys : List Nat) (nCols r c : Nat) :
    gridCR pureV xs ys nCols 2 r c = (1, xs.getD (c + 1) 0) := by
  simp [gridCR]

/-- Strict row-major order on atomic grid positions. -/
def rmLt (p q : Nat × Nat) : Prop :=
  p.1 < q.1 ∨ (p.1 = q.1 ∧ p.2 < q.2)

/-- Invariant of the `_grid_table` scan after processing the positions in
`done`: emitted cells have positive spans, lie inside the grid and are
based at already-scanned positions; the `used` matrix holds exactly the
covered positions; scanned positions are used; at most one cell was
emitted per scanned position; and under `span_mode` 1 (resp. 2) rowspans
(resp. colspans) are 1 and no atomic position is covered twice. -/
structure GridInv (nRows nCols spanMode : Nat) (done : List (Nat × Nat))
    (acc : GridAcc) : Prop where
  cells_ok : ∀ cl ∈ acc.cells, 1 ≤ cl.colspan ∧ 1 ≤ cl.rowspan ∧
      cl.row + cl.rowspan ≤ nRows ∧ cl.col + cl.colspan ≤ nCols ∧
      (cl.row, cl.col) ∈ done
  used_iff : ∀ r c, acc.used r c = true ↔ ∃ cl ∈ acc.cells, coversB cl r c = true
  done_used : ∀ p ∈ done, acc.used p.1 p.2 = true
  len_le : acc.cells.length ≤ done.length
  rows_one : spanMode = 1 → ∀ cl ∈ acc.cells, cl.rowspan = 1
  cols_one : spanMode = 2 → ∀ cl ∈ acc.cells, cl.colspan = 1
  disj : (spanMode = 1 ∨ spanMode = 2) → ∀ r c,
      acc.cells.countP (fun cl => coversB cl r c) ≤ 1

theorem coversB_iff (cl : CellE) (a b : Nat) :
    coversB cl a b = true ↔
      cl.row ≤ a ∧ a < cl.row + cl.rowspan ∧ cl.col ≤ b ∧ b < cl.col + cl.colspan := by
  simp only [coversB, Bool.and_eq_true, decide_eq_true_eq]
  omega

theorem gridNewCell_covers (px py : Int) (xs ys : List Nat) (cr rr : Nat × Nat)
    (r c a b : Nat) :
    coversB (gridNewCell px py xs ys cr rr r c) a b = true ↔
      r ≤ a ∧ a < r + rr.1 ∧ c ≤ b ∧ b < c + cr.1 := by
  rw [coversB_iff]
  rfl

theorem gridStep_inv (px py : Int) (pureV pureH : Img) (xs ys : List Nat)
    (nRows nCols spanMode : Nat) (done : List (Nat × Nat)) (acc : GridAcc)
    (r c : Nat) (hinv : GridInv nRows nCols spanMode done acc)
    (hr : r < nRows) (hc : c < nCols)
    (hord : ∀ p ∈ done, rmLt p (r, c)) :
    GridInv nRows nCols spanMode (done ++ [(r, c)])
      (gridStep px py pureV pureH xs ys nRows nCols spanMode acc (r, c)) := by
  by_cases hused : acc.used r c = true
  · have hstep : gridStep px py pureV pureH xs ys nRows nCols spanMode acc (r, c)
        = acc := by
      simp [gridStep, hused]
    rw [hstep]
    refine ⟨?_, hinv.used_iff, ?_, ?_, hinv.rows_one, hinv.cols_one, hinv.disj⟩
    · intro cl hcl
      have h := hinv.cells_ok cl hcl
      exact ⟨h.1, h.2.1, h.2.2.1, h.2.2.2.1, List.mem_append_left _ h.2.2.2.2⟩
    · intro p hp
      rcases List.mem_append.mp hp with hp | hp
      · exact hinv.done_used p hp
      · rw [List.mem_singleton.mp hp]
        exact hused
    · have := hinv.len_le
      rw [List.length_append]
      omega
  · have husedf : acc.used r c = false := by
      revert hused
      cases acc.used r c <;> simp
    have hstep : gridStep px py pureV pureH xs ys nRows nCols spanMode acc (r, c)
        = gridEmit px py xs ys nRows nCols
            (gridCR pureV xs ys nCols spanMode r c)
            (gridRR pureH xs ys nRows spanMode
              (gridCR pureV xs ys nCols spanMode r c).2 r c)
            acc r c := by
      simp [gridStep, husedf]
    rw [hstep]
    have hcs1 : 1 ≤ (gridCR pureV xs ys nCols spanMode r c).1 :=
      gridCR_fst_ge pureV xs ys nCols spanMode r c
    have hcsle : c + (gridCR pureV xs ys nCols spanMode r c).1 ≤ nCols :=
      gridCR_fst_le pureV xs ys nCols spanMode r c hc
    have hrs1 : 1 ≤ (gridRR pureH xs ys nRows spanMode
        (gridCR pureV xs ys nCols spanMode r c).2 r c).1 :=
      gridRR_fst_ge pureH xs ys nRows spanMode _ r c
    have hrsle : r + (gridRR pureH xs ys nRows spanMode
        (gridCR pureV xs ys nCols spanMode r c).2 r c).1 ≤ nRows :=
      gridRR_fst_le pureH xs ys nRows spanMode _ r c hr
    have hguard : ∀ a b : Nat,
        ((acc.used a b ||
          (decide (r ≤ a) &&
            decide (a < r + (gridRR pureH xs ys nRows spanMode
              (gridCR pureV xs ys nCols spanMode r c).2 r c).1) &&
            decide (c ≤ b) &&
            decide (b < c + (gridCR pureV xs ys nCols spanMode r c).1) &&
            decide (a < nRows) && decide (b < nCols))) = true)
          ↔ (acc.used a b = true ∨
              coversB (gridNewCell px py xs ys
                (gridCR pureV xs ys nCols spanMode r c)
                (gridRR pureH xs ys nRows spanMode
                  (gridCR pureV xs ys nCols spanMode r c).2 r c) r c) a b = true) := by
      intro a b
      rw [Bool.or_eq_true, gridNewCell_covers]
      simp only [Bool.and_eq_true, decide_eq_true_eq]
      constructor
      · rintro (h | h)
        · exact Or.inl h
        · exact Or.inr (by omega)
      · rintro (h | h)
        · exact Or.inl h
        · exact Or.inr (by omega)
    refine ⟨?_, ?_, ?_, ?_, ?_, ?_, ?_⟩
    · -- cells_ok
      intro cl hcl
      rcases List.mem_append.mp hcl with hcl | hcl
      · have h := hinv.cells_ok cl hcl
        exact ⟨h.1, h.2.1, h.2.2.1, h.2.2.2.1, List.mem_append_left _ h.2.2.2.2⟩
      · rw [List.mem_singleton.mp hcl]
        refine ⟨hcs1, hrs1, ?_, ?_, List.mem_append_right _ (List.mem_singleton.mpr rfl)⟩
        · exact hrsle
        · exact hcsle
    · -- used_iff
      intro a b
      rw [show (gridEmit px py xs ys nRows nCols
            (gridCR pureV xs ys nCols spanMode r c)
            (gridRR pureH xs ys nRows spanMode
              (gridCR pureV xs ys nCols spanMode r c).2 r c)
            acc r c).used a b
          = (acc.used a b ||
            (decide (r ≤ a) &&
              decide (a < r + (gridRR pureH xs ys nRows spanMode
                (gridCR pureV xs ys nCols spanMode r c).2 r c).1) &&
              decide (c ≤ b) &&
              decide (b < c + (gridCR pureV xs ys nCols spanMode r c).1) &&
              decide (a < nRows) && decide (b < nCols))) from rfl]
      rw [hguard a b, hinv.used_iff a b]
      constructor
      · rintro (⟨cl, hcl, hcov⟩ | h)
        · exact ⟨cl, List.mem_append_left _ hcl, hcov⟩
        · exact ⟨_, List.mem_append_right _ (List.mem_singleton.mpr rfl), h⟩
      · rintro ⟨cl, hcl, hcov⟩
        rcases List.mem_append.mp hcl with hcl | hcl
        · exact Or.inl ⟨cl, hcl, hcov⟩
        · rw [List.mem_singleton.mp hcl] at hcov
          exact Or.inr hcov
    · -- done_used
      intro p hp
      rcases List.mem_append.mp hp with hp | hp
      · have h := hinv.done_used p hp
        rw [show (gridEmit px py xs ys nRows nCols _ _ acc r c).used p.1 p.2
            = (acc.used p.1 p.2 || _) from rfl]
        rw [h]
        rfl
      · rw [List.mem_singleton.mp hp]
        apply (hguard r c).mpr
        apply Or.inr
        rw [gridNewCell_covers]
        omega
    · -- len_le
      have := hinv.len_le
      show (acc.cells ++ [_]).length ≤ (done ++ [(r, c)]).length
      rw [List.length_append, List.length_append]
      simp
      omega
    · -- rows_one
      intro h1 cl hcl
      rcases List.mem_append.mp hcl with hcl | hcl
      · exact hinv.rows_one h1 cl hcl
      · rw [List.mem_singleton.mp hcl]
        show (gridRR pureH xs ys nRows spanMode
          (gridCR pureV xs ys nCols spanMode r c).2 r c).1 = 1
        rw [h1, gridRR_mode1]
    · -- cols_one
      intro h2 cl hcl
      rcases List.mem_append.mp hcl with hcl | hcl
      · exact hinv.cols_one h2 cl hcl
      · rw [List.mem_singleton.mp hcl]
        show (gridCR pureV xs ys nCols spanMode r c).1 = 1
        rw [h2, gridCR_mode2]
    · -- disj
      intro hmode a b
      show ((acc.cells ++ [_]).countP fun cl => coversB cl a b) ≤ 1
      rw [List.countP_append]
      by_cases hcov : coversB (gridNewCell px py xs ys
          (gridCR pureV xs ys nCols spanMode r c)
          (gridRR pureH xs ys nRows spanMode
            (gridCR pureV xs ys nCols spanMode r c).2 r c) r c) a b = true
      · have hz : (acc.cells.countP fun cl => coversB cl a b) = 0 := by
          rw [List.countP_eq_zero]
          intro cl hcl hclcov
          have hcell := hinv.cells_ok cl hcl
          have hlt := hord _ hcell.2.2.2.2
          unfold rmLt at hlt
          rw [gridNewCell_covers] at hcov
          rw [coversB_iff] at hclcov
          have hcovrc : coversB cl r c = true := by
            rw [coversB_iff]
            rcases hmode with h1 | h2
            · have hclrs : cl.rowspan = 1 := hinv.rows_one h1 cl hcl
              have hnrs : (gridRR pureH xs ys nRows spanMode
                  (gridCR pureV xs ys nCols spanMode r c).2 r c).1 = 1 := by
                rw [h1, gridRR_mode1]
              rw [hnrs] at hcov
              omega
            · have hclcs : cl.colspan = 1 := hinv.cols_one h2 cl hcl
              have hncs : (gridCR pureV xs ys nCols spanMode r c).1 = 1 := by
                rw [h2, gridCR_mode2]
              rw [hncs] at hcov
              omega
          have habs : acc.used r c = true :=
            (hinv.used_iff r c).mpr ⟨cl, hcl, hcovrc⟩
          rw [husedf] at habs
          exact Bool.false_ne_true habs
        rw [hz]
        simp [List.countP_cons, hcov]
      · have : (List.countP (fun cl => coversB cl a b) [gridNewCell px py xs ys
            (gridCR pureV xs ys nCols spanMode r c)
            (gridRR pureH xs ys nRows spanMode
              (gridCR pureV xs ys nCols spanMode r c).2 r c) r c]) = 0 := by
          simp [List.countP_cons, hcov]
        rw [this]
        have := hinv.disj hmode a b
        omega

theorem gridFold_inv (px py : Int) (pureV pureH : Img) (xs ys : List Nat)
    (nRows nCols spanMode : Nat) :
    ∀ (rest done : List (Nat × Nat)) (acc : GridAcc),
      GridInv nRows nCols spanMode done acc →
      (∀ p ∈ rest, p.1 < nRows ∧ p.2 < nCols) →
      (∀ p ∈ done, ∀ q ∈ rest, rmLt p q) →
      List.Pairwise rmLt rest →
      GridInv nRows nCols spanMode (done ++ rest)
        (rest.foldl (gridStep px py pureV pureH xs ys nRows nCols spanMode) acc) := by
  intro rest
  induction rest with
  | nil =>
      intro done acc hinv _ _ _
      simpa using hinv
  | cons q rest ih =>
      intro done acc hinv hbound hord hpw
      rw [List.foldl_cons]
      have hq := hbound q (List.mem_cons_self q rest)
      have hstep := gridStep_inv px py pureV pureH xs ys nRows nCols spanMode done acc
        q.1 q.2 hinv hq.1 hq.2 (fun p hp => hord p hp q (List.mem_cons_self q rest))
      rw [Prod.mk.eta] at hstep
      have hres := ih (done ++ [q]) _ hstep
        (fun p hp => hbound p (List.mem_cons_of_mem q hp))
        (fun p hp q' hq' => by
          rcases List.mem_append.mp hp with hp | hp
          · exact hord p hp q' (List.mem_cons_of_mem q hq')
          · rw [List.mem_singleton.mp hp]
            exact (List.pairwise_cons.mp hpw).1 q' hq')
        (List.pairwise_cons.mp hpw).2
      rw [List.append_assoc, List.singleton_append] at hres
      exact hres

theorem gridPositions_mem (nRows nCols : Nat) (p : Nat × Nat) :
    p ∈ gridPositions nRows nCols ↔ p.1 < nRows ∧ p.2 < nCols := by
  cases p with
  | mk r c =>
      simp only [gridPositions, List.mem_flatMap, List.mem_map, List.mem_range,
        Prod.mk.injEq]
      constructor
      · rintro ⟨a, ha, b, hb, rfl, rfl⟩
        exact ⟨ha, hb⟩
      · rintro ⟨hr, hc⟩
        exact ⟨r, hr, c, hc, rfl, rfl⟩

theorem gridPositions_length (nRows nCols : Nat) :
    (gridPositions nRows nCols).length = nRows * nCols := by
  rw [gridPositions, List.length_flatMap]
  have hmap : (List.range nRows).map
      (List.length ∘ fun r => (List.range nCols).map fun c => (r, c))
      = (List.range nRows).map fun _ => nCols := by
    apply List.map_congr_left
    intro a _
    simp
  rw [hmap]
  simp [List.map_const]

theorem gridPositions_pairwise (nRows nCols : Nat) :
    List.Pairwise rmLt (gridPositions nRows nCols) := by
  have hdef : gridPositions nRows nCols =
      ((List.range nRows).map fun r => (List.range nCols).map fun c => (r, c)).flatten := by
    rw [gridPositions, List.flatMap_def]
  rw [hdef, List.pairwise_flatten]
  constructor
  · intro l' hl'
    obtain ⟨r, _, rfl⟩ := List.mem_map.mp hl'
    rw [List.pairwise_map]
    apply List.Pairwise.imp ?_ (List.pairwise_lt_range nCols)
    intro a b hab
    exact Or.inr ⟨rfl, hab⟩
  · rw [List.pairwise_map]
    apply List.Pairwise.imp ?_ (List.pairwise_lt_range nRows)
    intro r1 r2 h12 x hx y hy
    obtain ⟨a, _, rfl⟩ := List.mem_map.mp hx
    obtain ⟨b, _, rfl⟩ := List.mem_map.mp hy
    exact Or.inl h12

/-- Claim C2's counterexample masks: a 20×20 ROI where the vertical line at
x = 10 exists only in the upper half and the horizontal line at y = 10 only
in the left half (plus complete boundary rules). -/
def cexV : Img :=
  ⟨20, 20, fun r c => decide (c = 0) || (decide (c = 10) && decide (r < 10)) ||
    decide (c = 19)⟩

/-- Horizontal-line mask of the claim C2 counterexample. -/
def cexH : Img :=
  ⟨20, 20, fun r c => decide (r = 0) || (decide (r = 10) && decide (c < 10)) ||
    decide (r = 19)⟩

/-- Claim C2, counterexample: on the `cexV`/`cexH` masks (a 2×2 boundary
grid) with `span_mode = 0` (merge both directions), the atomic position
(row 1, col 1) is covered by *two* emitted cells — the cell at (0,1) grows
`rowspan = 2` and the cell at (1,0) grows `colspan = 2`, and neither growth
consults the `used` matrix — so the exactly-once partition claimed for
every `span_mode` fails. -/
theorem claim_C2_counterexample :
    ((gridYs cexH).length - 1 = 2 ∧ (gridXs cexV).length - 1 = 2) ∧
      (gridTable 0 0 cexV cexH 0).countP (fun cl => coversB cl 1 1) = 2 := by
  constructor
  · constructor
    · decide
    · decide
  · decide

/-- Claim C2, amended: for every pair of masks and every `span_mode`, the
cells of `_grid_table` have `colspan, rowspan ≥ 1`, number at most
`(#row boundaries - 1) × (#column boundaries - 1)`, and cover every atomic
position of the boundary grid at least once; the exactly-once partition
holds for `span_mode = 1` (columns only) and `span_mode = 2` (rows only) —
with `span_mode = 0` both growth directions run without consulting the
`used` matrix and an atomic position can be covered twice
(see the counterexample). -/
theorem claim_C2_amended (px py : Int) (pureV pureH : Img) (spanMode : Nat) :
    (∀ cl ∈ gridTable px py pureV pureH spanMode,
        1 ≤ cl.colspan ∧ 1 ≤ cl.rowspan) ∧
    (gridTable px py pureV pureH spanMode).length ≤
      ((gridYs pureH).length - 1) * ((gridXs pureV).length - 1) ∧
    (∀ r c, r < (gridYs pureH).length - 1 → c < (gridXs pureV).length - 1 →
      1 ≤ (gridTable px py pureV pureH spanMode).countP
            (fun cl => coversB cl r c)) ∧
    ((spanMode = 1 ∨ spanMode = 2) → ∀ r c,
      (gridTable px py pureV pureH spanMode).countP
          (fun cl => coversB cl r c) ≤ 1) := by
  by_cases h1 : (gridXs pureV).length < 2
  · have hempty : gridTable px py pureV pureH spanMode = [] := by
      simp [gridTable, h1]
    rw [hempty]
    refine ⟨fun cl hcl => absurd hcl (List.not_mem_nil cl), by simp, ?_, ?_⟩
    · intro r c _ hc
      exact absurd hc (by omega)
    · intro _ r c
      simp
  · by_cases h2 : (gridYs pureH).length < 2
    · have hempty : gridTable px py pureV pureH spanMode = [] := by
        simp [gridTable, h1, h2]
      rw [hempty]
      refine ⟨fun cl hcl => absurd hcl (List.not_mem_nil cl), by simp, ?_, ?_⟩
      · intro r c hr _
        exact absurd hr (by omega)
      · intro _ r c
        simp
    · have hmain : gridTable px py pureV pureH spanMode =
          ((gridPositions ((gridYs pureH).length - 1) ((gridXs pureV).length - 1)).foldl
            (gridStep px py pureV pureH (gridXs pureV) (gridYs pureH)
              ((gridYs pureH).length - 1) ((gridXs pureV).length - 1) spanMode)
            ⟨fun _ _ => false, []⟩).cells := by
        simp [gridTable, h1, h2]
      have hinv0 : GridInv ((gridYs pureH).length - 1) ((gridXs pureV).length - 1)
          spanMode [] ⟨fun _ _ => false, []⟩ := by
        refine ⟨?_, ?_, ?_, ?_, ?_, ?_, ?_⟩ <;> simp
      have hfold := gridFold_inv px py pureV pureH (gridXs pureV) (gridYs pureH)
        ((gridYs pureH).length - 1) ((gridXs pureV).length - 1) spanMode
        (gridPositions ((gridYs pureH).length - 1) ((gridXs pureV).length - 1))
        [] ⟨fun _ _ => false, []⟩ hinv0
        (fun p hp => (gridPositions_mem _ _ p).mp hp)
        (fun p hp => absurd hp (List.not_mem_nil p))
        (gridPositions_pairwise _ _)
      rw [List.nil_append] at hfold
      rw [hmain]
      refine ⟨?_, ?_, ?_, ?_⟩
      · intro cl hcl
        have h := hfold.cells_ok cl hcl
        exact ⟨h.1, h.2.1⟩
      · have h := hfold.len_le
        rw [gridPositions_length] at h
        exact h
      · intro r c hr hc
        have hmem : (r, c) ∈ gridPositions ((gridYs pureH).length - 1)
            ((gridXs pureV).length - 1) := (gridPositions_mem _ _ (r, c)).mpr ⟨hr, hc⟩
        have hu := hfold.done_used (r, c) hmem
        obtain ⟨cl, hcl, hcov⟩ := (hfold.used_iff r c).mp hu
        have hpos : 0 < ((gridPositions ((gridYs pureH).length - 1)
            ((gridXs pureV).length - 1)).foldl
              (gridStep px py pureV pureH (gridXs pureV) (gridYs pureH)
                ((gridYs pureH).length - 1) ((gridXs pureV).length - 1) spanMode)
              ⟨fun _ _ => false, []⟩).cells.countP (fun cl => coversB cl r c) :=
          List.countP_pos_iff.mpr ⟨cl, hcl, hcov⟩
        omega
      · intro hmode r c
        exact hfold.disj hmode r c

/-- All-foreground 3×3 mask: every row and column is a boundary, giving a
perfectly ruled 2×2 grid. -/
def imgFull3 : Img := ⟨3, 3, fun _ _ => true⟩

/-- Claim C2, witness: for the perfectly ruled 2×2 grid with
`span_mode = 1`, atomic position (0, 0) is inside the grid and is covered
exactly once. -/
theorem claim_C2_witness :
    ((0 < (gridYs imgFull3).length - 1 ∧ 0 < (gridXs imgFull3).length - 1) ∧
      (1 = 1 ∨ (1 : Nat) = 2)) ∧
    (1 ≤ (gridTable 0 0 imgFull3 imgFull3 1).countP (fun cl => coversB cl 0 0) ∧
      (gridTable 0 0 imgFull3 imgFull3 1).countP (fun cl => coversB cl 0 0) ≤ 1) :=
  ⟨⟨⟨by decide, by decide⟩, Or.inl rfl⟩,
    ⟨(claim_C2_amended 0 0 imgFull3 imgFull3 1).2.2.1 0 0 (by decide) (by decide),
     (claim_C2_amended 0 0 imgFull3 imgFull3 1).2.2.2 (Or.inl rfl) 0 0⟩⟩

theorem growColAux_stop (pureV : Img) (xs : List Nat) (y0 y1 fuel nextC : Nat)
    (acc : Nat × Nat)
    (hstop : hasLine pureV y0 y1 (xs.getD nextC 0 - 3)
      (min pureV.w (xs.getD nextC 0 + 4)) ((y1 - y0) / 5) = true) :
    growColAux pureV xs y0 y1 fuel nextC acc = acc := by
  cases fuel with
  | zero => rfl
  | succ fuel =>
      rw [growColAux]
      by_cases hA : y1 ≤ y0 ∨ min pureV.w (xs.getD nextC 0 + 4) ≤ xs.getD nextC 0 - 3
      · rw [if_pos hA]
      · rw [if_neg hA, if_pos hstop]

theorem growRowAux_stop (pureH : Img) (ys : List Nat) (x0 x1 fuel nextR : Nat)
    (acc : Nat × Nat)
    (hstop : hasLine pureH (ys.getD nextR 0 - 3)
      (min pureH.h (ys.getD nextR 0 + 4)) x0 x1 ((x1 - x0) / 5) = true) :
    growRowAux pureH ys x0 x1 fuel nextR acc = acc := by
  cases fuel with
  | zero => rfl
  | succ fuel =>
      rw [growRowAux]
      by_cases hA : x1 ≤ x0 ∨ min pureH.h (ys.getD nextR 0 + 4) ≤ ys.getD nextR 0 - 3
      · rw [if_pos hA]
      · rw [if_neg hA, if_pos hstop]

theorem gridCR_atomic (pureV : Img) (xs ys : List Nat) (nCols spanMode r c : Nat)
    (hstop : hasLine pureV (ys.getD r 0) (ys.getD (r + 1) 0)
        (xs.getD (c + 1) 0 - 3) (min pureV.w (xs.getD (c + 1) 0 + 4))
        ((ys.getD (r + 1) 0 - ys.getD r 0) / 5) = true) :
    gridCR pureV xs ys nCols spanMode r c = (1, xs.getD (c + 1) 0) := by
  unfold gridCR
  split
  · unfold growCol
    exact growColAux_stop pureV xs _ _ _ _ _ hstop
  · rfl

theorem gridRR_atomic (pureH : Img) (xs ys : List Nat) (nRows spanMode crx r c : Nat)
    (hstop : hasLine pureH (ys.getD (r + 1) 0 - 3)
      (min pureH.h (ys.getD (r + 1) 0 + 4))
      (xs.getD c 0) crx ((crx - xs.getD c 0) / 5) = true) :
    gridRR pureH xs ys nRows spanMode crx r c = (1, ys.getD (r + 1) 0) := by
  unfold gridRR
  split
  · unfold growRow
    exact growRowAux_stop pureH ys _ _ _ _ _ hstop
  · rfl

/-- The `1 × 1` cell for scan position `p` of a perfectly ruled grid. -/
def atomicCellOf (px py : Int) (xs ys : List Nat) (p : Nat × Nat) : CellE :=
  gridNewCell px py xs ys (1, xs.getD (p.2 + 1) 0) (1, ys.getD (p.1 + 1) 0) p.1 p.2

/-- State relation of the `_grid_table` scan on a perfectly ruled grid:
the cells are exactly the atomic cells of the scanned positions, in scan
order, and `used` holds exactly the scanned positions. -/
def AccAtomic (px py : Int) (xs ys : List Nat) (done : List (Nat × Nat))
    (acc : GridAcc) : Prop :=
  acc.cells = done.map (atomicCellOf px py xs ys) ∧
  ∀ a b, acc.used a b = decide ((a, b) ∈ done)

theorem bool_eq_of_iff {x y : Bool} (h : x = true ↔ y = true) : x = y := by
  cases x <;> cases y <;> simp_all

theorem gridStep_atomic (px py : Int) (pureV pureH : Img) (xs ys : List Nat)
    (nRows nCols spanMode : Nat) (done : List (Nat × Nat)) (acc : GridAcc)
    (r c : Nat) (hr : r < nRows) (hc : c < nCols)
    (hstopV : hasLine pureV (ys.getD r 0) (ys.getD (r + 1) 0)
      (xs.getD (c + 1) 0 - 3) (min pureV.w (xs.getD (c + 1) 0 + 4))
      ((ys.getD (r + 1) 0 - ys.getD r 0) / 5) = true)
    (hstopH : hasLine pureH (ys.getD (r + 1) 0 - 3)
      (min pureH.h (ys.getD (r + 1) 0 + 4))
      (xs.getD c 0) (xs.getD (c + 1) 0)
      ((xs.getD (c + 1) 0 - xs.getD c 0) / 5) = true)
    (hnd : (r, c) ∉ done)
    (hacc : AccAtomic px py xs ys done acc) :
    AccAtomic px py xs ys (done ++ [(r, c)])
      (gridStep px py pureV pureH xs ys nRows nCols spanMode acc (r, c)) := by
  have husedf : acc.used r c = false := by
    rw [hacc.2 r c]
    simp [hnd]
  have hstep : gridStep px py pureV pureH xs ys nRows nCols spanMode acc (r, c)
      = gridEmit px py xs ys nRows nCols (1, xs.getD (c + 1) 0)
          (1, ys.getD (r + 1) 0) acc r c := by
    simp only [gridStep]
    rw [if_neg (by rw [husedf]; exact Bool.false_ne_true)]
    rw [gridCR_atomic pureV xs ys nCols spanMode r c hstopV]
    rw [show ((1 : Nat), xs.getD (c + 1) 0).2 = xs.getD (c + 1) 0 from rfl]
    rw [gridRR_atomic pureH xs ys nRows spanMode (xs.getD (c + 1) 0) r c hstopH]
  rw [hstep]
  constructor
  · show acc.cells ++ [gridNewCell px py xs ys (1, xs.getD (c + 1) 0)
        (1, ys.getD (r + 1) 0) r c]
      = (done ++ [(r, c)]).map (atomicCellOf px py xs ys)
    rw [hacc.1, List.map_append]
    rfl
  · intro a b
    show (acc.used a b ||
        (decide (r ≤ a) && decide (a < r + (1, ys.getD (r + 1) 0).1) &&
          decide (c ≤ b) && decide (b < c + (1, xs.getD (c + 1) 0).1) &&
          decide (a < nRows) && decide (b < nCols)))
      = decide ((a, b) ∈ done ++ [(r, c)])
    rw [hacc.2 a b]
    apply bool_eq_of_iff
    simp only [Bool.or_eq_true, Bool.and_eq_true, decide_eq_true_eq,
      List.mem_append, List.mem_singleton, Prod.mk.injEq]
    constructor
    · rintro (h | h)
      · exact Or.inl h
      · exact Or.inr ⟨by omega, by omega⟩
    · rintro (h | ⟨rfl, rfl⟩)
      · exact Or.inl h
      · exact Or.inr ⟨⟨⟨⟨⟨le_refl a, by omega⟩, le_refl b⟩, by omega⟩, hr⟩, hc⟩

theorem rmLt_ne (p q : Nat × Nat) : rmLt p q → p ≠ q := by
  intro h heq
  subst heq
  unfold rmLt at h
  omega

theorem gridFold_atomic (px py : Int) (pureV pureH : Img) (xs ys : List Nat)
    (nRows nCols spanMode : Nat)
    (Hv : ∀ r c, r < nRows → c < nCols →
      hasLine pureV (ys.getD r 0) (ys.getD (r + 1) 0)
        (xs.getD (c + 1) 0 - 3) (min pureV.w (xs.getD (c + 1) 0 + 4))
        ((ys.getD (r + 1) 0 - ys.getD r 0) / 5) = true)
    (Hh : ∀ r c, r < nRows → c < nCols →
      hasLine pureH (ys.getD (r + 1) 0 - 3)
        (min pureH.h (ys.getD (r + 1) 0 + 4))
        (xs.getD c 0) (xs.getD (c + 1) 0)
        ((xs.getD (c + 1) 0 - xs.getD c 0) / 5) = true) :
    ∀ (rest done : List (Nat × Nat)) (acc : GridAcc),
      AccAtomic px py xs ys done acc →
      (∀ p ∈ rest, p.1 < nRows ∧ p.2 < nCols) →
      (∀ p ∈ rest, p ∉ done) →
      List.Pairwise (· ≠ ·) rest →
      AccAtomic px py xs ys (done ++ rest)
        (rest.foldl (gridStep px py pureV pureH xs ys nRows nCols spanMode) acc) := by
  intro rest
  induction rest with
  | nil =>
      intro done acc hacc _ _ _
      simpa using hacc
  | cons q rest ih =>
      intro done acc hacc hbound hnd hpw
      rw [List.foldl_cons]
      have hq := hbound q (List.mem_cons_self q rest)
      have hstep := gridStep_atomic px py pureV pureH xs ys nRows nCols spanMode
        done acc q.1 q.2 hq.1 hq.2 (Hv q.1 q.2 hq.1 hq.2) (Hh q.1 q.2 hq.1 hq.2)
        (by rw [Prod.mk.eta]; exact hnd q (List.mem_cons_self q rest)) hacc
      rw [Prod.mk.eta] at hstep
      have hres := ih (done ++ [q]) _ hstep
        (fun p hp => hbound p (List.mem_cons_of_mem q hp))
        (fun p hp => by
          intro hmem
          rcases List.mem_append.mp hmem with hmem | hmem
          · exact hnd p (List.mem_cons_of_mem q hp) hmem
          · exact (List.pairwise_cons.mp hpw).1 p hp |>.symm (List.mem_singleton.mp hmem)
          )
        (List.pairwise_cons.mp hpw).2
      rw [List.append_assoc, List.singleton_append] at hres
      exact hres

theorem atomicGrid_eq_map (px py : Int) (xs ys : List Nat) :
    atomicGrid px py xs ys =
      (gridPositions (ys.length - 1) (xs.length - 1)).map
        (atomicCellOf px py xs ys) := by
  rw [atomicGrid, gridPositions, List.map_flatMap]
  congr 1
  funext r
  rw [List.map_map]
  rfl

/-- Claim C1: for a ROI whose vertical mask yields `M+1` column boundaries
and whose horizontal mask yields `N+1` row boundaries with no synthetic
bottom boundary appended (a perfectly ruled grid reaches the ROI bottom),
such that every boundary strip probed during span growth meets the
foreground threshold, `_grid_table` returns exactly the row-major atomic
grid: `M × N` cells, each with `colspan = rowspan = 1`, whose bboxes
(translated by the ROI origin) tile the rectangle spanned by the boundary
coordinates. -/
theorem claim_C1_grid_completeness (px py : Int) (pureV pureH : Img)
    (spanMode M N : Nat) (hM : 1 ≤ M) (hN : 1 ≤ N)
    (hxs : (gridXs pureV).length = M + 1)
    (hys0 : gridYs pureH = findLinePositions pureH 1)
    (hysLen : (findLinePositions pureH 1).length = N + 1)
    (Hv : ∀ r, r < (gridYs pureH).length - 1 → ∀ xpos ∈ gridXs pureV,
        hasLine pureV ((gridYs pureH).getD r 0) ((gridYs pureH).getD (r + 1) 0)
          (xpos - 3) (min pureV.w (xpos + 4))
          (((gridYs pureH).getD (r + 1) 0 - (gridYs pureH).getD r 0) / 5) = true)
    (Hh : ∀ c, c < (gridXs pureV).length - 1 → ∀ ypos ∈ gridYs pureH,
        hasLine pureH (ypos - 3) (min pureH.h (ypos + 4))
          ((gridXs pureV).getD c 0) ((gridXs pureV).getD (c + 1) 0)
          (((gridXs pureV).getD (c + 1) 0 - (gridXs pureV).getD c 0) / 5) = true) :
    gridTable px py pureV pureH spanMode
        = atomicGrid px py (gridXs pureV) (gridYs pureH) ∧
    (gridTable px py pureV pureH spanMode).length = N * M ∧
    ∀ cl ∈ gridTable px py pureV pureH spanMode,
      cl.colspan = 1 ∧ cl.rowspan = 1 := by
  have hysL : (gridYs pureH).length = N + 1 := by rw [hys0, hysLen]
  have h1 : ¬ (gridXs pureV).length < 2 := by omega
  have h2 : ¬ (gridYs pureH).length < 2 := by omega
  have hmain : gridTable px py pureV pureH spanMode =
      ((gridPositions ((gridYs pureH).length - 1) ((gridXs pureV).length - 1)).foldl
        (gridStep px py pureV pureH (gridXs pureV) (gridYs pureH)
          ((gridYs pureH).length - 1) ((gridXs pureV).length - 1) spanMode)
        ⟨fun _ _ => false, []⟩).cells := by
    simp [gridTable, h1, h2]
  have Hv' : ∀ r c, r < (gridYs pureH).length - 1 → c < (gridXs pureV).length - 1 →
      hasLine pureV ((gridYs pureH).getD r 0) ((gridYs pureH).getD (r + 1) 0)
        ((gridXs pureV).getD (c + 1) 0 - 3)
        (min pureV.w ((gridXs pureV).getD (c + 1) 0 + 4))
        (((gridYs pureH).getD (r + 1) 0 - (gridYs pureH).getD r 0) / 5) = true := by
    intro r c hr hc
    apply Hv r hr
    have hlt : c + 1 < (gridXs pureV).length := by omega
    rw [List.getD_eq_getElem _ _ hlt]
    exact List.getElem_mem hlt
  have Hh' : ∀ r c, r < (gridYs pureH).length - 1 → c < (gridXs pureV).length - 1 →
      hasLine pureH ((gridYs pureH).getD (r + 1) 0 - 3)
        (min pureH.h ((gridYs pureH).getD (r + 1) 0 + 4))
        ((gridXs pureV).getD c 0) ((gridXs pureV).getD (c + 1) 0)
        (((gridXs pureV).getD (c + 1) 0 - (gridXs pureV).getD c 0) / 5) = true := by
    intro r c hr hc
    apply Hh c hc
    have hlt : r + 1 < (gridYs pureH).length := by omega
    rw [List.getD_eq_getElem _ _ hlt]
    exact List.getElem_mem hlt
  have hfold := gridFold_atomic px py pureV pureH (gridXs pureV) (gridYs pureH)
    ((gridYs pureH).length - 1) ((gridXs pureV).length - 1) spanMode Hv' Hh'
    (gridPositions ((gridYs pureH).length - 1) ((gridXs pureV).length - 1))
    [] ⟨fun _ _ => false, []⟩
    ⟨rfl, fun a b => by simp⟩
    (fun p hp => (gridPositions_mem _ _ p).mp hp)
    (fun p _ => List.not_mem_nil p)
    (List.Pairwise.imp (fun h => rmLt_ne _ _ h) (gridPositions_pairwise _ _))
  rw [List.nil_append] at hfold
  have hcells : gridTable px py pureV pureH spanMode =
      (gridPositions ((gridYs pureH).length - 1) ((gridXs pureV).length - 1)).map
        (atomicCellOf px py (gridXs pureV) (gridYs pureH)) := by
    rw [hmain]
    exact hfold.1
  refine ⟨?_, ?_, ?_⟩
  · rw [hcells, atomicGrid_eq_map]
  · rw [hcells, List.length_map, gridPositions_length, hysL, hxs]
    simp
  · intro cl hcl
    rw [hcells] at hcl
    obtain ⟨p, _, rfl⟩ := List.mem_map.mp hcl
    exact ⟨rfl, rfl⟩

/-- Claim C1, witness: the all-foreground 3×3 masks give a perfectly ruled
2×2 grid (boundaries 0, 1, 2 on both axes, no synthetic boundary, every
probed strip trivially meets the threshold), and `_grid_table` emits
exactly the 2×2 = 4 atomic cells. -/
theorem claim_C1_witness :
    ((1 ≤ 2 ∧ (gridXs imgFull3).length = 2 + 1 ∧
      gridYs imgFull3 = findLinePositions imgFull3 1 ∧
      (findLinePositions imgFull3 1).length = 2 + 1) ∧
     (∀ r, r < (gridYs imgFull3).length - 1 → ∀ xpos ∈ gridXs imgFull3,
        hasLine imgFull3 ((gridYs imgFull3).getD r 0) ((gridYs imgFull3).getD (r + 1) 0)
          (xpos - 3) (min imgFull3.w (xpos + 4))
          (((gridYs imgFull3).getD (r + 1) 0 - (gridYs imgFull3).getD r 0) / 5) = true) ∧
     (∀ c, c < (gridXs imgFull3).length - 1 → ∀ ypos ∈ gridYs imgFull3,
        hasLine imgFull3 (ypos - 3) (min imgFull3.h (ypos + 4))
          ((gridXs imgFull3).getD c 0) ((gridXs imgFull3).getD (c + 1) 0)
          (((gridXs imgFull3).getD (c + 1) 0 - (gridXs imgFull3).getD c 0) / 5) = true)) ∧
    (gridTable 7 9 imgFull3 imgFull3 1
        = atomicGrid 7 9 (gridXs imgFull3) (gridYs imgFull3) ∧
      (gridTable 7 9 imgFull3 imgFull3 1).length = 2 * 2 ∧
      ∀ cl ∈ gridTable 7 9 imgFull3 imgFull3 1,
        cl.colspan = 1 ∧ cl.rowspan = 1) :=
  ⟨⟨⟨by decide, by decide, by decide, by decide⟩, by decide, by decide⟩,
    claim_C1_grid_completeness 7 9 imgFull3 imgFull3 1 2 2
      (by decide) (by decide) (by decide) (by decide) (by decide)
      (by decide) (by decide)⟩
